import Mathlib

/-!
# Verification of the ratadroid rendering core

Shallow embedding of the rendering core of the `ratatui-android` template
(`src/template/ratatui-android/src/{backend.rs, rasterizer.rs,
widgets/direct_keyboard.rs}`) together with the parts of its direct
dependencies (`ratatui`'s `Buffer`/`Cell`/`Rect`, the `lru` crate's
`LruCache`) whose behaviour the code relies on.

Modelling conventions:
* `usize`/`u16`/`u32` arithmetic is modelled over `Nat`.  The code's
  `saturating_sub`/`saturating_add` become plain `Nat` subtraction and
  addition.  Unchecked Rust index expressions are modelled as `Option`-valued
  accesses that fail (`none`) when out of bounds, mirroring a Rust panic;
  the source's explicit bounds guards become the same guards here, so a
  theorem showing a render returns `some` is a no-panic / no-out-of-bounds
  statement.
* `f32` values appearing in the rasterizer are integer-valued
  (`ceil` results, products of integers) except for the literals `0.6` and
  the blending coefficients; these computations are modelled exactly over
  `ℚ`.  For the magnitudes at which the code operates (well below `2^24`)
  the `f32` computations on integral values are exact, so the `ℚ` model
  agrees with the source.
* The cosmic-text shaping engine is external to the repository; its only
  interaction with this code is the sequence of `(x, y, color)` callbacks
  passed to `buffer.draw` and, in the rasterizer, the bitmap returned by
  `render_char_cosmic`.  Both are modelled as explicit oracle parameters,
  universally quantified in the theorems.
-/

set_option autoImplicit false

namespace Ratadroid

/-- A byte buffer (the RGBA destination surface, `&mut [u8]` in the source).
Entries are `Nat`s; writes only ever store values ≤ 255. -/
abbrev Bytes := List Nat

/-- A single RGBA color value, `[u8; 4]` in the source. -/
structure Rgba where
  r : Nat
  g : Nat
  b : Nat
  a : Nat
  deriving DecidableEq, Repr

/-- Model of a checked byte store: Rust's `dest[i] = v` panics when `i` is out
of bounds, so the model returns `none` there. -/
def storeByte (dest : Bytes) (i v : Nat) : Option Bytes :=
  if i < dest.length then some (dest.set i v) else none

/-- The write pattern `if idx + 3 < dest.len() { dest[idx..idx+3] = color }`
used by `render_cell_background`, `draw_fallback_block` and the keyboard
renderer: guarded by the actual slice length, skipped otherwise. -/
def writeRgbaAt (dest : Bytes) (idx : Nat) (c : Rgba) : Option Bytes :=
  if idx + 3 < dest.length then do
    let d1 ← storeByte dest idx c.r
    let d2 ← storeByte d1 (idx + 1) c.g
    let d3 ← storeByte d2 (idx + 2) c.b
    storeByte d3 (idx + 3) c.a
  else
    some dest

/-! ## Colors (`ratatui::style::Color` and `color_to_rgba` from rasterizer.rs) -/

/-- `ratatui::style::Color` (the variants matched by `color_to_rgba`). -/
inductive RColor where
  | reset | black | red | green | yellow | blue | magenta | cyan | white
  | gray | darkGray | lightRed | lightGreen | lightYellow | lightBlue
  | lightMagenta | lightCyan
  | rgb (r g b : Nat)
  | indexed (i : Nat)
  deriving DecidableEq, Repr

/-- `color_to_rgba` from rasterizer.rs. -/
def colorToRgba : RColor → Rgba
  | .reset        => ⟨255, 255, 255, 255⟩
  | .black        => ⟨0, 0, 0, 255⟩
  | .red          => ⟨255, 0, 0, 255⟩
  | .green        => ⟨0, 255, 0, 255⟩
  | .yellow       => ⟨255, 255, 0, 255⟩
  | .blue         => ⟨0, 0, 255, 255⟩
  | .magenta      => ⟨255, 0, 255, 255⟩
  | .cyan         => ⟨0, 255, 255, 255⟩
  | .white        => ⟨255, 255, 255, 255⟩
  | .gray         => ⟨128, 128, 128, 255⟩
  | .darkGray     => ⟨64, 64, 64, 255⟩
  | .lightRed     => ⟨255, 128, 128, 255⟩
  | .lightGreen   => ⟨128, 255, 128, 255⟩
  | .lightYellow  => ⟨255, 255, 128, 255⟩
  | .lightBlue    => ⟨128, 128, 255, 255⟩
  | .lightMagenta => ⟨255, 128, 255, 255⟩
  | .lightCyan    => ⟨128, 255, 255, 255⟩
  | .rgb r g b    => ⟨r, g, b, 255⟩
  | .indexed _    => ⟨255, 255, 255, 255⟩

/-- `color_to_rgba_bg` from rasterizer.rs: `Reset` maps to opaque black. -/
def colorToRgbaBg (c : RColor) : Rgba :=
  match c with
  | .reset => ⟨0, 0, 0, 255⟩
  | _ => colorToRgba c

/-! ## Cells and the ratatui `Buffer` -/

/-- `ratatui::buffer::Cell`, restricted to the fields this code reads:
the symbol (a short string, modelled as its character list), the foreground
and the background color.  Modifiers are never read by the rasterizer and
are omitted. -/
structure RCell where
  symbol : List Char
  fg : RColor
  bg : RColor
  deriving DecidableEq, Repr

/-- `Cell::EMPTY` / `Cell::default()`: a blank space with `Reset` colors. -/
def RCell.empty : RCell := ⟨[' '], .reset, .reset⟩

instance : Inhabited RCell := ⟨RCell.empty⟩

/-- `ratatui::layout::Rect` (u16 fields, modelled over `Nat`). -/
structure RRect where
  x : Nat
  y : Nat
  width : Nat
  height : Nat
  deriving DecidableEq, Repr

/-- `Rect::contains(position)`: `x ≤ px < x + width` and likewise for `y`
(`right()`/`bottom()` are saturating adds, plain `Nat` addition here). -/
def RRect.containsPos (r : RRect) (px py : Nat) : Bool :=
  r.x ≤ px && px < r.x + r.width && r.y ≤ py && py < r.y + r.height

/-- `ratatui::buffer::Buffer`: a flat row-major cell vector plus its area. -/
structure RBuffer where
  area : RRect
  content : List RCell
  deriving Repr

/-- `Buffer::index_of_opt` followed by `content.get`:`Buffer::cell`. -/
def RBuffer.cellAt (b : RBuffer) (x y : Nat) : Option RCell :=
  if b.area.containsPos x y then
    b.content.get? ((y - b.area.y) * b.area.width + (x - b.area.x))
  else
    none

/-- `Buffer::cell_mut` followed by `*cell = v` (no-op when out of area). -/
def RBuffer.setCell (b : RBuffer) (x y : Nat) (v : RCell) : RBuffer :=
  if b.area.containsPos x y then
    { b with content := b.content.set ((y - b.area.y) * b.area.width + (x - b.area.x)) v }
  else
    b

/-- `Buffer::empty(area)`: filled with `Cell::EMPTY`. -/
def RBuffer.emptyOf (area : RRect) : RBuffer :=
  ⟨area, List.replicate (area.width * area.height) RCell.empty⟩

/-- `Buffer::resize(area)` from ratatui: truncate the content vector if it is
longer than the new area, extend it with `Cell::EMPTY` otherwise, then set
the new area.  Retained cells are *not* reset. -/
def RBuffer.resize (b : RBuffer) (area : RRect) : RBuffer :=
  let length := area.width * area.height
  let content :=
    if length < b.content.length then b.content.take length
    else b.content ++ List.replicate (length - b.content.length) RCell.empty
  ⟨area, content⟩

/-! ## `AndroidBackend` (backend.rs) -/

/-- `AndroidBackend`: width/height in cells, cursor, and the cell buffer. -/
structure AndroidBackend where
  width : Nat
  height : Nat
  cursorX : Nat
  cursorY : Nat
  buffer : RBuffer
  deriving Repr

namespace AndroidBackend

/-- `AndroidBackend::new(width, height)`. -/
def new (width height : Nat) : AndroidBackend :=
  ⟨width, height, 0, 0, RBuffer.emptyOf ⟨0, 0, width, height⟩⟩

/-- `AndroidBackend::resize(width, height)`: store the new dimensions and call
`Buffer::resize` with the new area. -/
def resize (b : AndroidBackend) (width height : Nat) : AndroidBackend :=
  { b with
    width := width
    height := height
    buffer := b.buffer.resize ⟨0, 0, width, height⟩ }

/-- `AndroidBackend::get_cell(x, y)`: `None` whenever `x ≥ width` or
`y ≥ height`, otherwise the bounds-checked buffer access. -/
def get_cell (b : AndroidBackend) (x y : Nat) : Option RCell :=
  if x < b.width ∧ y < b.height then b.buffer.cellAt x y else none

/-- The loop body of `Backend::draw` for `AndroidBackend`: entries whose
coordinates are in bounds overwrite the cell, others are ignored. -/
def drawCells (b : AndroidBackend) (content : List (Nat × Nat × RCell)) : AndroidBackend :=
  content.foldl
    (fun acc e =>
      if e.1 < acc.width ∧ e.2.1 < acc.height then
        { acc with buffer := acc.buffer.setCell e.1 e.2.1 e.2.2 }
      else acc)
    b

/-- `Backend::draw` for `AndroidBackend`: runs the loop and returns `Ok(())`
(the error type is never produced; `Unit` stands in for `io::Error`). -/
def draw (b : AndroidBackend) (content : List (Nat × Nat × RCell)) :
    Except Unit AndroidBackend :=
  Except.ok (drawCells b content)

/-- `AndroidBackend::buffer_area()`. -/
def buffer_area (b : AndroidBackend) : RRect := b.buffer.area

end AndroidBackend

/-! ## Wide-character classification and the glyph-cache key (rasterizer.rs) -/

/-- The Unicode range table of `is_wide_char` on a code point (`c as u32`). -/
def isWideCode (code : Nat) : Bool :=
  (0x1100 ≤ code && code ≤ 0x115F) ||
  (0x2E80 ≤ code && code ≤ 0x9FFF) ||
  (0xAC00 ≤ code && code ≤ 0xD7A3) ||
  (0xF900 ≤ code && code ≤ 0xFAFF) ||
  (0xFE10 ≤ code && code ≤ 0xFE1F) ||
  (0xFF00 ≤ code && code ≤ 0xFFEF) ||
  (0x1F300 ≤ code && code ≤ 0x1F9FF) ||
  (0x1FA00 ≤ code && code ≤ 0x1FAFF) ||
  (0x2600 ≤ code && code ≤ 0x26FF) ||
  (0x2700 ≤ code && code ≤ 0x27BF) ||
  (0x1F1E0 ≤ code && code ≤ 0x1F1FF)

/-- `is_wide_char` from rasterizer.rs: whether a character occupies two
terminal columns. -/
def isWideChar (c : Char) : Bool :=
  isWideCode c.toNat

/-- Rust's `x as u32` applied to a nonnegative-or-negative `f32`, modelled on
`ℚ`: truncation toward zero, negatives and NaN saturate to 0, large values
saturate to `u32::MAX`. -/
def toU32 (q : ℚ) : Nat :=
  if q < 0 then 0 else min ⌊q⌋.toNat (2 ^ 32 - 1)

/-- `(q).ceil() as u32` on a `f32`, modelled on `ℚ`. -/
def ceilU32 (q : ℚ) : Nat :=
  min ⌈q⌉.toNat (2 ^ 32 - 1)

/-- The packed color `(alpha << 24) | (r << 16) | (g << 8) | b` computed by
`render_char_cosmic` (color is `[r, g, b, a]`, so `color[3]` is alpha). -/
def colorToU32 (c : Rgba) : Nat :=
  ((c.a <<< 24) ||| (c.r <<< 16)) ||| ((c.g <<< 8) ||| c.b)

/-- The glyph-cache key `(c as u32, size as u32, color_u32)` computed by
`render_char_cosmic`. -/
def cacheKey (c : Char) (size : ℚ) (color : Rgba) : Nat × Nat × Nat :=
  (c.toNat, toU32 size, colorToU32 color)

/-! ## The LRU cache (the `lru` crate's `LruCache`)

Modelled as an association list ordered most-recently-used first, with keys
unique.  `get` promotes a hit to the front; `put` inserts (or replaces) at the
front and drops the least-recently-used tail entry once the capacity is
exceeded — the behaviour of `lru::LruCache` relied on by `CHAR_CACHE`. -/

section Lru

variable {K V : Type} [DecidableEq K]

/-- Entries with the given key removed (keys are unique, so this removes the
entry if present). -/
def lruErase (k : K) (l : List (K × V)) : List (K × V) :=
  l.filter (fun p => p.1 ≠ k)

/-- Plain lookup without promotion. -/
def lruLookup (k : K) (l : List (K × V)) : Option V :=
  (l.find? (fun p => p.1 = k)).map Prod.snd

/-- `LruCache::get`: a hit moves the entry to the most-recently-used spot. -/
def lruGet (k : K) (l : List (K × V)) : Option V × List (K × V) :=
  match lruLookup k l with
  | some v => (some v, (k, v) :: lruErase k l)
  | none => (none, l)

/-- `LruCache::put` with capacity `cap`: insert or replace at the front, then
evict down to `cap` entries (dropping the least-recently-used). -/
def lruPut (cap : Nat) (k : K) (v : V) (l : List (K × V)) : List (K × V) :=
  ((k, v) :: lruErase k l).take cap

/-- The keys of a cache state, most-recently-used first. -/
def lruKeys (l : List (K × V)) : List K := l.map Prod.fst

end Lru

/-- Capacity of `CHAR_CACHE` (`NonZeroUsize::new(1000)`). -/
def charCacheCap : Nat := 1000

/-! ## Alpha blending (rasterizer.rs)

The formula `dest = dest * (1 - srcAlpha) + src * srcAlpha` per RGB channel
with `dest_alpha = max(dest_alpha, src_alpha)`, used both by the
`render_char_cosmic` draw callback and by `render_bitmap`.  The `f32`
computation followed by `as u8` is modelled exactly over `ℚ` with a
truncating, saturating cast. -/

/-- One channel of the alpha blend:
`((dest as f32 * (1 - a/255)) + (src as f32 * (a/255))) as u8`. -/
def blendChannel (dst src a : Nat) : Nat :=
  min ⌊(dst : ℚ) * (1 - (a : ℚ) / 255) + (src : ℚ) * ((a : ℚ) / 255)⌋.toNat 255

/-- The whole-pixel blend: RGB channels by `blendChannel` with the source
alpha, destination alpha `dest[idx+3].max(a)`. -/
def blendPixel (dst src : Rgba) : Rgba :=
  ⟨blendChannel dst.r src.r src.a,
   blendChannel dst.g src.g src.a,
   blendChannel dst.b src.b src.a,
   max dst.a src.a⟩

/-! ## `render_char_cosmic` (rasterizer.rs)

The cosmic-text `buffer.draw` call invokes a pixel callback once per covered
pixel; the sequence of callback invocations `(x, y, pixel_color)` is the
shaping engine's only influence on the result and is passed in as the
`events` oracle. -/

/-- `CachedChar = (u32, u32, bool, Vec<u8>)`: width, height, wide flag, RGBA
bytes. -/
structure CachedChar where
  width : Nat
  height : Nat
  wide : Bool
  data : Bytes
  deriving DecidableEq, Repr

/-- The state of `CHAR_CACHE`: an LRU cache from `(char, size, color)` keys
to rendered bitmaps. -/
abbrev CharCache := List ((Nat × Nat × Nat) × CachedChar)

/-- One invocation of the `buffer.draw` pixel callback in
`render_char_cosmic`: clip to the cell, check the index against the buffer
length, skip fully transparent pixels, otherwise alpha-blend into the RGBA
buffer and count the pixel as drawn. -/
def applyGlyphEvent (cellWidth cellHeight : Nat) (st : Bytes × Nat)
    (e : Int × Int × Rgba) : Bytes × Nat :=
  if e.1 < 0 ∨ e.2.1 < 0 ∨ (cellWidth : Int) ≤ e.1 ∨ (cellHeight : Int) ≤ e.2.1 then st
  else
    let x := e.1.toNat
    let y := e.2.1.toNat
    let idx := (y * cellWidth + x) * 4
    if st.1.length ≤ idx + 3 then st
    else if e.2.2.a = 0 then st
    else
      let dstPx : Rgba :=
        ⟨st.1.getD idx 0, st.1.getD (idx + 1) 0, st.1.getD (idx + 2) 0, st.1.getD (idx + 3) 0⟩
      let p := blendPixel dstPx e.2.2
      (((((st.1.set idx p.r).set (idx + 1) p.g).set (idx + 2) p.b).set (idx + 3) p.a),
       st.2 + 1)

/-- The cache-miss path of `render_char_cosmic`: compute the cell dimensions
from the font size, render the shaping engine's pixel callbacks into a fresh
RGBA buffer, and return `none` when no pixel was drawn. -/
def renderCharMiss (c : Char) (size : ℚ)
    (events : List (Int × Int × Rgba)) : Option CachedChar :=
  let is_wide := isWideChar c
  let baseCellWidth := ceilU32 (size * 0.6)
  let cellWidth0 := if is_wide then baseCellWidth * 2 else baseCellWidth
  let cellHeight0 := ceilU32 size
  let cellWidth := max cellWidth0 4
  let cellHeight := max cellHeight0 4
  let rgba0 : Bytes := List.replicate (cellWidth * cellHeight * 4) 0
  let st := events.foldl (applyGlyphEvent cellWidth cellHeight) (rgba0, 0)
  if st.2 = 0 then none
  else some ⟨cellWidth, cellHeight, is_wide, st.1⟩

/-- `render_char_cosmic(c, size, color)` with the shaping engine's pixel
callbacks supplied as `events` and the `CHAR_CACHE` state threaded
explicitly.  A cache hit returns the (promoted) cached bitmap; a miss runs
`renderCharMiss` and, on success, caches and returns the result. -/
def renderCharCosmic (c : Char) (size : ℚ) (color : Rgba)
    (events : List (Int × Int × Rgba)) (cache : CharCache) :
    Option CachedChar × CharCache :=
  let key := cacheKey c size color
  match lruGet key cache with
  | (some v, cache1) => (some v, cache1)
  | (none, _) =>
    match renderCharMiss c size events with
    | none => (none, cache)
    | some result => (some result, lruPut charCacheCap key result cache)

/-! ## The direct keyboard (widgets/direct_keyboard.rs) -/

/-- The logical key names of the keyboard buttons (opaque strings in the
source; an enumeration here to keep the embedding string-free). -/
inductive KeyName where
  | esc | tab | shift | ctrl | up | delete | enter | left | down | right | keyboard
  deriving DecidableEq, Repr

/-- A button definition: label, logical key name, width in units. -/
structure KButton where
  label : List Char
  keyName : KeyName
  widthUnits : Nat
  deriving Repr

/-- Row 1 of `DirectKeyboard::new()`. -/
def kbRow1 : List KButton :=
  [⟨['E', 'S', 'C'], .esc, 1⟩,
   ⟨['T', 'A', 'B'], .tab, 1⟩,
   ⟨['S', 'F', 'T'], .shift, 1⟩,
   ⟨['C', 'T', 'L'], .ctrl, 1⟩,
   ⟨['^'], .up, 1⟩,
   ⟨['D', 'E', 'L'], .delete, 1⟩,
   ⟨['R', 'E', 'T'], .enter, 1⟩]

/-- Row 2 of `DirectKeyboard::new()`. -/
def kbRow2 : List KButton :=
  [⟨['<'], .left, 1⟩,
   ⟨['v'], .down, 1⟩,
   ⟨['>'], .right, 1⟩,
   ⟨['K', 'B'], .keyboard, 1⟩]

/-- `row2_padding` of `DirectKeyboard::new()`. -/
def kbRow2Padding : Nat := 3

/-- `total_units`: the sum of row-1 width units (used by both `render` and
`handle_touch` to derive the button width). -/
def kbTotalUnits : Nat := (kbRow1.map KButton.widthUnits).sum

/-- The button rectangle geometry shared by `render` and `handle_touch`:
`button_width = min(window_width / total_units, 150)`,
`keyboard_width = button_width * total_units`, keyboard centered. -/
def kbButtonWidth (windowWidth : Nat) : Nat :=
  min (windowWidth / kbTotalUnits) 150

/-- The centered keyboard left edge `keyboard_x`. -/
def kbKeyboardX (windowWidth : Nat) : Nat :=
  (windowWidth - kbButtonWidth windowWidth * kbTotalUnits) / 2

/-- A button rectangle as painted by `render` (the `(x, y, width, height)`
passed to `draw_button`, with the button's key name). -/
structure BtnRect where
  keyName : KeyName
  x : Nat
  y : Nat
  width : Nat
  height : Nat
  deriving DecidableEq, Repr

/-- Whether a pixel coordinate lies inside a button rectangle. -/
def BtnRect.containsPt (r : BtnRect) (px py : Nat) : Prop :=
  r.x ≤ px ∧ px < r.x + r.width ∧ r.y ≤ py ∧ py < r.y + r.height

instance (r : BtnRect) (px py : Nat) : Decidable (r.containsPt px py) := by
  unfold BtnRect.containsPt; infer_instance

/-- The rectangles `DirectKeyboard::render` paints for one button row:
starting at `xStart`, each button is `button_width * width_units` wide and
the running offset advances by the button width plus 2. -/
def kbRowRects (buttonWidth rowY buttonHeight : Nat) :
    List KButton → Nat → List BtnRect
  | [], _ => []
  | b :: rest, xOff =>
    let btnW := buttonWidth * b.widthUnits
    ⟨b.keyName, xOff, rowY, btnW, buttonHeight⟩ ::
      kbRowRects buttonWidth rowY buttonHeight rest (xOff + btnW + 2)

/-- The full list of button rectangles painted by `DirectKeyboard::render`
with the given geometry parameters: row 1 at `keyboard_y + 1` starting at
`keyboard_x`, row 2 at `keyboard_y + button_height + 3` indented by
`row2_padding` button widths plus `2 * row2_padding`. -/
def renderButtonRects (windowWidth keyboardY buttonHeight : Nat) : List BtnRect :=
  let bw := kbButtonWidth windowWidth
  let kbX := kbKeyboardX windowWidth
  kbRowRects bw (keyboardY + 1) buttonHeight kbRow1 kbX ++
    kbRowRects bw (keyboardY + buttonHeight + 3) buttonHeight kbRow2
      (kbX + bw * kbRow2Padding + 2 * kbRow2Padding)

/-- The inner loop of `DirectKeyboard::handle_touch` over one button row:
scan buttons left to right, returning the first whose x-span contains the
touch x. -/
def kbScanRow (buttonWidth touchX : Nat) :
    List KButton → Nat → Option KeyName
  | [], _ => none
  | b :: rest, xOff =>
    let btnW := buttonWidth * b.widthUnits
    if xOff ≤ touchX ∧ touchX < xOff + btnW then some b.keyName
    else kbScanRow buttonWidth touchX rest (xOff + btnW + 2)

/-- `DirectKeyboard::handle_touch(x, y, window_width, keyboard_y,
button_height)`: recompute the layout and hit-test row 1 then row 2. -/
def handleTouch (touchX touchY windowWidth keyboardY buttonHeight : Nat) :
    Option KeyName :=
  let bw := kbButtonWidth windowWidth
  let kbX := kbKeyboardX windowWidth
  let row1Y := keyboardY + 1
  let hit1 :=
    if row1Y ≤ touchY ∧ touchY < row1Y + buttonHeight then
      kbScanRow bw touchX kbRow1 kbX
    else none
  match hit1 with
  | some k => some k
  | none =>
    let row2Y := keyboardY + buttonHeight + 3
    if row2Y ≤ touchY ∧ touchY < row2Y + buttonHeight then
      kbScanRow bw touchX kbRow2 (kbX + bw * kbRow2Padding + 2 * kbRow2Padding)
    else none

/-! ## The rasterizer (rasterizer.rs)

`render_to_surface_with_offset` and its helpers.  The glyph lookup
(`render_char_cosmic` with its global cache, plus the feature-gated native
fallback) is abstracted as an oracle `glyph : Char → Rgba → Option CachedChar`
— the theorems below hold for every oracle, hence for the real glyph
pipeline in any cache/font state.  Alongside the pixel output the model
returns one `CellEvent` per cell for which the render loop's body ran (the
cell's background fill and glyph draws happen exactly inside that body). -/

/-- The `Rasterizer` struct: `font_width = (size * 0.6).ceil()`,
`font_height = size.ceil()` (integral `f32`s, stored as `Nat`). -/
structure Rasterizer where
  fontWidth : Nat
  fontHeight : Nat
  fontSize : ℚ
  deriving Repr

/-- `Rasterizer::new(size)`. -/
def Rasterizer.new (size : ℚ) : Rasterizer :=
  ⟨⌈size * 0.6⌉.toNat, ⌈size⌉.toNat, size⟩

/-- One rendered cell of the render loop: terminal coordinates, pixel start
column, clipped pixel width, and the wide flag of the leading character. -/
structure CellEvent where
  termY : Nat
  termX : Nat
  pxStart : Nat
  cellWidth : Nat
  wide : Bool
  deriving DecidableEq, Repr

/-- Inner loop of `render_cell_background` (columns of one pixel row):
break once `px` reaches `window_width`, otherwise do the guarded 4-byte
write and continue. -/
def bgCols (stride windowWidth py pxStart : Nat) (bg : Rgba) :
    Nat → Nat → Bytes → Option Bytes
  | 0, _, dest => some dest
  | n + 1, pxOffset, dest =>
    let px := pxStart + pxOffset
    if windowWidth ≤ px then some dest
    else do
      let d ← writeRgbaAt dest ((py * stride + px) * 4) bg
      bgCols stride windowWidth py pxStart bg n (pxOffset + 1) d

/-- Outer loop of `render_cell_background` (pixel rows of the cell):
break once `py` reaches `window_height`. -/
def bgRows (stride windowWidth windowHeight pyStart pxStart cellWidth : Nat)
    (bg : Rgba) : Nat → Nat → Bytes → Option Bytes
  | 0, _, dest => some dest
  | n + 1, pyOffset, dest =>
    let py := pyStart + pyOffset
    if windowHeight ≤ py then some dest
    else do
      let d ← bgCols stride windowWidth py pxStart bg cellWidth 0 dest
      bgRows stride windowWidth windowHeight pyStart pxStart cellWidth bg n (pyOffset + 1) d

/-- `render_cell_background`. -/
def renderCellBackground (stride windowWidth windowHeight pxStart pyStart
    cellWidth rowHeight : Nat) (bg : Rgba) (dest : Bytes) : Option Bytes :=
  bgRows stride windowWidth windowHeight pyStart pxStart cellWidth bg rowHeight 0 dest

/-- The per-destination-pixel step of `render_bitmap` once the source pixel
has been read: skip fully transparent pixels, check the destination index
against the slice length, then alpha-blend. -/
def bmpPixel (stride destY destX : Nat) (src : Rgba) (dest : Bytes) : Option Bytes :=
  if src.a = 0 then some dest
  else
    let idx := (destY * stride + destX) * 4
    if dest.length ≤ idx + 3 then some dest
    else do
      let d0 ← dest.get? idx
      let d1 ← dest.get? (idx + 1)
      let d2 ← dest.get? (idx + 2)
      let d3 ← dest.get? (idx + 3)
      let p := blendPixel ⟨d0, d1, d2, d3⟩ src
      let e0 ← storeByte dest idx p.r
      let e1 ← storeByte e0 (idx + 1) p.g
      let e2 ← storeByte e1 (idx + 2) p.b
      storeByte e2 (idx + 3) p.a

/-- Inner column loop of `render_bitmap`: clip to the window, map the
destination column back to the source column by the scale factor, read the
source pixel (guarded against the bitmap length), and composite. -/
def bmpCols (stride windowWidth : Nat) (data : Bytes) (bitmapWidth srcY px
    offsetX destY : Nat) (scale : ℚ) : Nat → Nat → Bytes → Option Bytes
  | 0, _, dest => some dest
  | n + 1, destXRel, dest =>
    let next := bmpCols stride windowWidth data bitmapWidth srcY px offsetX destY scale n
      (destXRel + 1)
    let destX := px + offsetX + destXRel
    if windowWidth ≤ destX then next dest
    else
      let srcX := ⌊(destXRel : ℚ) / scale⌋.toNat
      if bitmapWidth ≤ srcX then next dest
      else
        let srcIdx := (srcY * bitmapWidth + srcX) * 4
        if data.length ≤ srcIdx + 3 then next dest
        else do
          let sr ← data.get? srcIdx
          let sg ← data.get? (srcIdx + 1)
          let sb ← data.get? (srcIdx + 2)
          let sa ← data.get? (srcIdx + 3)
          let d ← bmpPixel stride destY destX ⟨sr, sg, sb, sa⟩ dest
          next d

/-- Outer row loop of `render_bitmap`. -/
def bmpRows (stride windowWidth windowHeight : Nat) (data : Bytes)
    (bitmapWidth bitmapHeight px py offsetX scaledWidth : Nat) (scale : ℚ) :
    Nat → Nat → Bytes → Option Bytes
  | 0, _, dest => some dest
  | n + 1, destYRel, dest =>
    let next := bmpRows stride windowWidth windowHeight data bitmapWidth bitmapHeight px py
      offsetX scaledWidth scale n (destYRel + 1)
    let destY := py + destYRel
    if windowHeight ≤ destY then next dest
    else
      let srcY := ⌊(destYRel : ℚ) / scale⌋.toNat
      if bitmapHeight ≤ srcY then next dest
      else do
        let d ← bmpCols stride windowWidth data bitmapWidth srcY px offsetX destY scale
          scaledWidth 0 dest
        next d

/-- `render_bitmap`: scale the cached bitmap down (never up) to the cell,
center it horizontally, and composite it with per-pixel bounds checks. -/
def renderBitmap (r : Rasterizer) (width height : Nat) (data : Bytes)
    (px py stride windowWidth windowHeight cellWidthMultiplier : Nat)
    (dest : Bytes) : Option Bytes :=
  let bitmapWidth := width
  let bitmapHeight := height
  if data.length < bitmapWidth * bitmapHeight * 4 then some dest
  else
    let cellWidth := r.fontWidth * cellWidthMultiplier
    let cellHeight := r.fontHeight
    let scaleX : ℚ := (cellWidth : ℚ) / (bitmapWidth : ℚ)
    let scaleY : ℚ := (cellHeight : ℚ) / (bitmapHeight : ℚ)
    let scale := min (min scaleX scaleY) 1
    let scaledWidth := ⌊(bitmapWidth : ℚ) * scale⌋.toNat
    let scaledHeight := ⌊(bitmapHeight : ℚ) * scale⌋.toNat
    let offsetX := (cellWidth - scaledWidth) / 2
    bmpRows stride windowWidth windowHeight data bitmapWidth bitmapHeight px py offsetX
      scaledWidth scale scaledHeight 0 dest

/-- Inner column loop of `draw_fallback_block` (plain guarded writes). -/
def fbCols (stride : Nat) (color : Rgba) (y : Nat) :
    Nat → Nat → Bytes → Option Bytes
  | 0, _, dest => some dest
  | n + 1, x, dest => do
    let d ← writeRgbaAt dest ((y * stride + x) * 4) color
    fbCols stride color y n (x + 1) d

/-- Outer row loop of `draw_fallback_block`. -/
def fbRows (stride : Nat) (color : Rgba) (startX countX : Nat) :
    Nat → Nat → Bytes → Option Bytes
  | 0, _, dest => some dest
  | n + 1, y, dest => do
    let d ← fbCols stride color y countX startX dest
    fbRows stride color startX countX n (y + 1) d

/-- `draw_fallback_block`: a centered solid block sized
`max(font_height * 0.6, 4)`, clipped to the window. -/
def drawFallbackBlock (r : Rasterizer) (px py : Nat) (color : Rgba)
    (stride windowWidth windowHeight : Nat) (dest : Bytes) : Option Bytes :=
  let blockSize := ⌊max ((r.fontHeight : ℚ) * 0.6) 4⌋.toNat
  let startX := px + (r.fontWidth - blockSize) / 2
  let startY := py + (r.fontHeight - blockSize) / 2
  if windowWidth ≤ startX ∨ windowHeight ≤ startY then some dest
  else
    let endX := min (startX + blockSize) windowWidth
    let endY := min (startY + blockSize) windowHeight
    fbRows stride color startX (endX - startX) (endY - startY) startY dest

/-- `draw_char`: try the glyph pipeline (the oracle), paint the bitmap when
it is non-degenerate, otherwise draw the fallback block. -/
def drawChar (r : Rasterizer) (glyph : Char → Rgba → Option CachedChar)
    (c : Char) (px py : Nat) (color : Rgba)
    (stride windowWidth windowHeight : Nat) (dest : Bytes) : Option Bytes :=
  match glyph c color with
  | some g =>
    if 0 < g.width ∧ 0 < g.height ∧ g.data ≠ [] then
      renderBitmap r g.width g.height g.data px py stride windowWidth windowHeight
        (if isWideChar c then 2 else 1) dest
    else
      drawFallbackBlock r px py color stride windowWidth windowHeight dest
  | none => drawFallbackBlock r px py color stride windowWidth windowHeight dest

/-- The per-cell character loop of `render_to_surface_with_offset`: walk the
symbol's characters, advancing the draw cursor by one or two cell widths,
drawing while the cursor is within the cell span. -/
def drawChars (r : Rasterizer) (glyph : Char → Rgba → Option CachedChar)
    (pxStart cellWidth pyStart : Nat) (fg : Rgba)
    (stride windowWidth windowHeight : Nat) :
    List Char → Nat → Bytes → Option Bytes
  | [], _, dest => some dest
  | ch :: rest, charX, dest =>
    if ch = ' ' then
      drawChars r glyph pxStart cellWidth pyStart fg stride windowWidth windowHeight rest
        (charX + r.fontWidth) dest
    else if charX < pxStart + cellWidth then do
      let d ← drawChar r glyph ch charX pyStart fg stride windowWidth windowHeight dest
      drawChars r glyph pxStart cellWidth pyStart fg stride windowWidth windowHeight rest
        (if isWideChar ch then charX + 2 * r.fontWidth else charX + r.fontWidth) d
    else some dest

/-- The column loop of `render_to_surface_with_offset` for one terminal row:
skip columns consumed by a wide character (`skip_until_x`), fetch the cell
(blank when absent), compute its clipped pixel span, fill the background,
draw the characters, and record a `CellEvent` for the rendered cell. -/
def renderCols (r : Rasterizer) (glyph : Char → Rgba → Option CachedChar)
    (backend : AndroidBackend) (stride windowWidth windowHeight : Nat)
    (termY pyStart rowHeight : Nat) :
    Nat → Nat → Nat → Bytes → Option (Bytes × List CellEvent)
  | 0, _, _, dest => some (dest, [])
  | n + 1, termX, skipUntil, dest =>
    if termX < skipUntil then
      renderCols r glyph backend stride windowWidth windowHeight termY pyStart rowHeight n
        (termX + 1) skipUntil dest
    else
      let cell := (backend.get_cell termX termY).getD RCell.empty
      let symbol := cell.symbol
      let pxStart := termX * r.fontWidth
      if windowWidth ≤ pxStart then
        renderCols r glyph backend stride windowWidth windowHeight termY pyStart rowHeight n
          (termX + 1) skipUntil dest
      else
        let firstCh := symbol.headD ' '
        let charIsWide := isWideChar firstCh
        let cellMult := if charIsWide then 2 else 1
        let pxEnd := (termX + cellMult) * r.fontWidth
        let cellWidth := min (pxEnd - pxStart) (windowWidth - pxStart)
        if cellWidth = 0 then
          renderCols r glyph backend stride windowWidth windowHeight termY pyStart rowHeight n
            (termX + 1) skipUntil dest
        else
          let skipUntil2 := if charIsWide then termX + 2 else skipUntil
          let fg := colorToRgba cell.fg
          let bg := colorToRgbaBg cell.bg
          do
            let d1 ← renderCellBackground stride windowWidth windowHeight pxStart pyStart
              cellWidth rowHeight bg dest
            let d2 ←
              if symbol ≠ [] ∧ firstCh ≠ ' ' then
                drawChars r glyph pxStart cellWidth pyStart fg stride windowWidth windowHeight
                  symbol pxStart d1
              else some d1
            let res ← renderCols r glyph backend stride windowWidth windowHeight termY pyStart
              rowHeight n (termX + 1) skipUntil2 d2
            some (res.1, ⟨termY, termX, pxStart, cellWidth, charIsWide⟩ :: res.2)

/-- The row loop of `render_to_surface_with_offset`: compute each terminal
row's clipped vertical pixel span, skipping rows outside the visible area. -/
def renderRows (r : Rasterizer) (glyph : Char → Rgba → Option CachedChar)
    (backend : AndroidBackend) (stride windowWidth windowHeight : Nat)
    (topOffset maxRenderHeight bufferWidth : Nat) :
    Nat → Nat → Bytes → Option (Bytes × List CellEvent)
  | 0, _, dest => some (dest, [])
  | n + 1, termY, dest =>
    let pyStart := termY * r.fontHeight + topOffset
    if maxRenderHeight ≤ pyStart then
      renderRows r glyph backend stride windowWidth windowHeight topOffset maxRenderHeight
        bufferWidth n (termY + 1) dest
    else
      let pyEnd := (termY + 1) * r.fontHeight + topOffset
      let rowHeight := min (pyEnd - pyStart) (maxRenderHeight - pyStart)
      if rowHeight = 0 then
        renderRows r glyph backend stride windowWidth windowHeight topOffset maxRenderHeight
          bufferWidth n (termY + 1) dest
      else do
        let res1 ← renderCols r glyph backend stride windowWidth windowHeight termY pyStart
          rowHeight bufferWidth 0 0 dest
        let res2 ← renderRows r glyph backend stride windowWidth windowHeight topOffset
          maxRenderHeight bufferWidth n (termY + 1) res1.1
        some (res2.1, res1.2 ++ res2.2)

/-- `render_to_surface_with_offset`: the whole-frame render.  Returns the
final surface and the list of rendered-cell events; `none` would mean an
out-of-bounds write (a panic), which never happens (see the theorems). -/
def renderToSurfaceWithOffset (r : Rasterizer)
    (glyph : Char → Rgba → Option CachedChar) (backend : AndroidBackend)
    (dest : Bytes) (stride windowWidth windowHeight topOffset bottomOffset : Nat) :
    Option (Bytes × List CellEvent) :=
  let expectedBufferSize := stride * windowHeight * 4
  if dest.length < expectedBufferSize then some (dest, [])
  else
    let area := backend.buffer_area
    let maxRenderHeight := windowHeight - bottomOffset
    renderRows r glyph backend stride windowWidth windowHeight topOffset maxRenderHeight
      area.width area.height 0 dest

/-- `render_to_surface`: zero offsets. -/
def renderToSurface (r : Rasterizer) (glyph : Char → Rgba → Option CachedChar)
    (backend : AndroidBackend) (dest : Bytes)
    (stride windowWidth windowHeight : Nat) : Option (Bytes × List CellEvent) :=
  renderToSurfaceWithOffset r glyph backend dest stride windowWidth windowHeight 0 0

/-! ## Helper lemmas for the LRU model -/

section LruLemmas

variable {K V : Type} [DecidableEq K]

theorem lruLookup_cons_self (k : K) (v : V) (l : List (K × V)) :
    lruLookup k ((k, v) :: l) = some v := by
  simp [lruLookup]

theorem lruErase_of_not_mem (k : K) (l : List (K × V)) (h : k ∉ lruKeys l) :
    lruErase k l = l := by
  induction l with
  | nil => rfl
  | cons p rest ih =>
    simp only [lruKeys, List.map_cons, List.mem_cons, not_or] at h
    simp only [lruErase, List.filter_cons]
    rw [if_pos (by simpa using Ne.symm h.1)]
    have := ih (by simpa [lruKeys] using h.2)
    simpa [lruErase] using this

theorem lruPut_lookup_self (cap : Nat) (hcap : 0 < cap) (k : K) (v : V)
    (l : List (K × V)) : lruLookup k (lruPut cap k v l) = some v := by
  unfold lruPut
  obtain ⟨m, rfl⟩ : ∃ m, cap = m + 1 := ⟨cap - 1, by omega⟩
  rw [List.take_succ_cons]
  exact lruLookup_cons_self k v _

end LruLemmas

/-! ## C4: resize does not clear (`AndroidBackend::resize` / `Buffer::resize`) -/

/-- A non-blank cell used as the failing input for the resize claim. -/
def cellX : RCell := ⟨['X'], .reset, .reset⟩

/-- C4: the claim "resize(w, h) leaves every cell blank; resize always
clears" is false on the code.  `AndroidBackend::resize` delegates to
ratatui's `Buffer::resize`, which truncates or extends the content vector
but does not reset retained cells, contradicting the method's own doc
comment ("This clears the buffer").  Failing input: a 1×1 backend whose
cell (0,0) holds 'X'; after `resize(1, 1)` the cell still holds 'X'. -/
theorem backend_resize_same_dims_keeps_content :
    (((AndroidBackend.new 1 1).drawCells [(0, 0, cellX)]).resize 1 1).get_cell 0 0 =
        some cellX ∧
      cellX ≠ RCell.empty := by
  constructor
  · rfl
  · decide

/-! ## C5: out-of-bounds reads and draws are safe no-ops -/

/-- C5: for every backend state and every coordinate with `x ≥ width` or
`y ≥ height`, `get_cell` returns `None`, and `draw` on an iterator holding
an entry at that coordinate leaves the backend unchanged and returns `Ok`;
both operations are total (no panic). -/
theorem get_cell_and_draw_out_of_bounds_safe (b : AndroidBackend) (x y : Nat)
    (cell : RCell) (h : b.width ≤ x ∨ b.height ≤ y) :
    b.get_cell x y = none ∧ b.draw [(x, y, cell)] = Except.ok b := by
  constructor
  · simp only [AndroidBackend.get_cell]
    rw [if_neg (by omega)]
  · simp only [AndroidBackend.draw, AndroidBackend.drawCells, List.foldl_cons,
      List.foldl_nil]
    rw [if_neg (by omega)]

/-- Witness for C5 at a concrete input: a 2×2 backend and coordinate (5, 0). -/
theorem get_cell_and_draw_out_of_bounds_safe_witness :
    (AndroidBackend.new 2 2).get_cell 5 0 = none ∧
      (AndroidBackend.new 2 2).draw [(5, 0, RCell.empty)] =
        Except.ok (AndroidBackend.new 2 2) :=
  get_cell_and_draw_out_of_bounds_safe (AndroidBackend.new 2 2) 5 0 RCell.empty
    (Or.inl (by norm_num [AndroidBackend.new]))

/-! ## C6: the alpha-compositing boundary behaviour -/

/-- C6: for the per-pixel compositing used by `render_bitmap`: source alpha
255 replaces the destination RGB with the source RGB exactly; source alpha 0
leaves the destination buffer untouched (the pixel is skipped before any
write); the resulting alpha is the max of destination and source alpha; and
each RGB channel follows `dest * (1 - srcAlpha) + src * srcAlpha`
(truncated to a byte). -/
theorem alpha_compositing_boundary (d s : Rgba) (hr : s.r ≤ 255)
    (hg : s.g ≤ 255) (hb : s.b ≤ 255) (stride destY destX : Nat)
    (dest : Bytes) :
    (s.a = 255 → blendPixel d s = ⟨s.r, s.g, s.b, max d.a 255⟩) ∧
    (s.a = 0 → bmpPixel stride destY destX s dest = some dest) ∧
    (blendPixel d s).a = max d.a s.a ∧
    (blendPixel d s).r =
      min (⌊(d.r : ℚ) * ((255 - (s.a : ℚ)) / 255) + (s.r : ℚ) * ((s.a : ℚ) / 255)⌋).toNat
        255 := by
  refine ⟨?_, ?_, rfl, ?_⟩
  · intro ha
    have hch : ∀ dc sc : Nat, sc ≤ 255 → blendChannel dc sc 255 = sc := by
      intro dc sc hsc
      simp only [blendChannel]
      norm_num
      omega
    simp only [blendPixel, ha, hch d.r s.r hr, hch d.g s.g hg, hch d.b s.b hb]
  · intro ha
    simp [bmpPixel, ha]
  · simp only [blendPixel, blendChannel]
    congr 2
    ring_nf

/-- Witness for C6 at concrete pixels. -/
theorem alpha_compositing_boundary_witness :
    ((255 : Nat) = 255 → blendPixel ⟨1, 2, 3, 4⟩ ⟨10, 20, 30, 255⟩ =
        ⟨10, 20, 30, max 4 255⟩) ∧
    ((255 : Nat) = 0 → bmpPixel 7 0 0 ⟨10, 20, 30, 255⟩ [0, 0, 0, 0] =
        some [0, 0, 0, 0]) ∧
    (blendPixel ⟨1, 2, 3, 4⟩ ⟨10, 20, 30, 255⟩).a = max 4 255 ∧
    (blendPixel ⟨1, 2, 3, 4⟩ ⟨10, 20, 30, 255⟩).r =
      min (⌊(1 : ℚ) * ((255 - (255 : ℚ)) / 255) + (10 : ℚ) * ((255 : ℚ) / 255)⌋).toNat
        255 :=
  alpha_compositing_boundary ⟨1, 2, 3, 4⟩ ⟨10, 20, 30, 255⟩ (by norm_num)
    (by norm_num) (by norm_num) 7 0 0 [0, 0, 0, 0]

/-! ## C7: glyph-cache key quantization -/

/-- C7: the glyph-cache key is `(char, size as u32, (a<<24)|(r<<16)|(g<<8)|b)`;
two sizes with equal `u32` truncation and two equal colors give the identical
key, and after a successful render at one size a call at the other size is a
cache hit returning the same bitmap (for any shaping-oracle events). -/
theorem glyph_cache_key_quantization (c : Char) (s1 s2 : ℚ) (col1 col2 : Rgba)
    (hs : toU32 s1 = toU32 s2) (hc : col1 = col2) (cache : CharCache)
    (ev1 ev2 : List (Int × Int × Rgba)) :
    cacheKey c s1 col1 = cacheKey c s2 col2 ∧
    ∀ v cache1, renderCharCosmic c s1 col1 ev1 cache = (some v, cache1) →
      (renderCharCosmic c s2 col2 ev2 cache1).1 = some v := by
  have hkey : cacheKey c s2 col2 = cacheKey c s1 col1 := by
    simp [cacheKey, hs, hc]
  refine ⟨hkey.symm, ?_⟩
  intro v cache1 h
  have hlook : lruLookup (cacheKey c s1 col1) cache1 = some v := by
    rcases hl : lruLookup (cacheKey c s1 col1) cache with _ | v0
    · rcases hm : renderCharMiss c s1 ev1 with _ | result
      · rw [show renderCharCosmic c s1 col1 ev1 cache = (none, cache) by
          simp [renderCharCosmic, lruGet, hl, hm]] at h
        exact absurd (congrArg Prod.fst h) (by simp)
      · rw [show renderCharCosmic c s1 col1 ev1 cache = (some result,
            lruPut charCacheCap (cacheKey c s1 col1) result cache) by
          simp [renderCharCosmic, lruGet, hl, hm]] at h
        have h1 := congrArg Prod.fst h
        have h2 := congrArg Prod.snd h
        simp only at h1 h2
        rw [← h2, ← Option.some.inj h1]
        exact lruPut_lookup_self charCacheCap (by norm_num [charCacheCap]) _ _ _
    · simp only [renderCharCosmic, lruGet, hl] at h
      have h1 := congrArg Prod.fst h
      have h2 := congrArg Prod.snd h
      simp only at h1 h2
      rw [← h2, Option.some.inj h1]
      exact lruLookup_cons_self _ _ _
  simp [renderCharCosmic, hkey, lruGet, hlook]

/-- Witness for C7: sizes 16.0 and 16.9 truncate to the same key. -/
theorem glyph_cache_key_quantization_witness :
    cacheKey 'a' 16 ⟨255, 255, 255, 255⟩ =
      cacheKey 'a' (169 / 10) ⟨255, 255, 255, 255⟩ :=
  (glyph_cache_key_quantization 'a' 16 (169 / 10) ⟨255, 255, 255, 255⟩
    ⟨255, 255, 255, 255⟩ (by norm_num [toU32]) rfl [] [] []).1

/-! ## C8: the LRU eviction law -/

/-- C8: a full cache (size = capacity) receiving a fresh key evicts exactly
the least-recently-used entry (the keys become the new key followed by all
old keys but the last); and concretely with capacity 2, after put A, put B,
get A (promoting A), put C, the cache holds exactly C and A — B was
evicted. -/
theorem lru_eviction_law {K V : Type} [DecidableEq K] (cap : Nat)
    (hcap : 0 < cap) (l : List (K × V)) (hlen : l.length = cap) (k : K)
    (v : V) (hk : k ∉ lruKeys l) :
    lruKeys (lruPut cap k v l) = k :: (lruKeys l).dropLast ∧
    lruKeys (lruPut 2 (2 : Nat) (12 : Nat)
        (lruGet 0 (lruPut 2 1 11 (lruPut 2 0 10 ([] : List (Nat × Nat))))).2) =
      [2, 0] := by
  constructor
  · have herase : lruErase k l = l := lruErase_of_not_mem k l hk
    have hkeys : lruKeys (lruPut cap k v l) = (k :: lruKeys l).take cap := by
      simp [lruPut, herase, lruKeys, List.map_take]
    obtain ⟨m, rfl⟩ : ∃ m, cap = m + 1 := ⟨cap - 1, by omega⟩
    rw [hkeys, List.take_succ_cons]
    congr 1
    have hlk : (lruKeys l).length = m + 1 := by simp [lruKeys, hlen]
    rw [List.dropLast_eq_take, hlk]
    simp
  · decide

/-- Witness for C8 at a concrete full cache. -/
theorem lru_eviction_law_witness :
    lruKeys (lruPut 2 (5 : Nat) (50 : Nat) [(0, 10), (1, 11)]) =
        5 :: (lruKeys [((0 : Nat), (10 : Nat)), (1, 11)]).dropLast ∧
      lruKeys (lruPut 2 (2 : Nat) (12 : Nat)
          (lruGet 0 (lruPut 2 1 11 (lruPut 2 0 10 ([] : List (Nat × Nat))))).2) =
        [2, 0] :=
  lru_eviction_law 2 (by norm_num) [(0, 10), (1, 11)] (by simp) 5 50 (by decide)

/-! ## C10: the shape invariant of `render_char_cosmic` results -/

theorem applyGlyphEvent_length (cellWidth cellHeight : Nat) (st : Bytes × Nat)
    (e : Int × Int × Rgba) :
    (applyGlyphEvent cellWidth cellHeight st e).1.length = st.1.length := by
  unfold applyGlyphEvent
  split
  · rfl
  · dsimp only
    split
    · rfl
    · split
      · rfl
      · simp

theorem foldl_applyGlyphEvent_length (cellWidth cellHeight : Nat)
    (events : List (Int × Int × Rgba)) (st : Bytes × Nat) :
    (events.foldl (applyGlyphEvent cellWidth cellHeight) st).1.length =
      st.1.length := by
  induction events generalizing st with
  | nil => rfl
  | cons e rest ih =>
    rw [List.foldl_cons, ih, applyGlyphEvent_length]

theorem lruLookup_mem {K V : Type} [DecidableEq K] {k : K} {v : V}
    {l : List (K × V)} (h : lruLookup k l = some v) : (k, v) ∈ l := by
  unfold lruLookup at h
  rcases hf : l.find? (fun p => p.1 = k) with _ | p
  · rw [hf] at h; simp at h
  · rw [hf] at h
    simp at h
    have hmem := List.mem_of_find?_eq_some hf
    have hp := List.find?_some hf
    simp only [decide_eq_true_eq] at hp
    have : p = (k, v) := by
      cases p
      simp only at hp h
      simp [hp, h]
    rwa [this] at hmem

theorem mem_of_mem_lruErase {K V : Type} [DecidableEq K] {k : K}
    {e : K × V} {l : List (K × V)} (h : e ∈ lruErase k l) : e ∈ l :=
  List.mem_of_mem_filter h

/-- The dimensions, wide flag and payload length of a successful
`renderCharMiss` result. -/
theorem renderCharMiss_some_facts {c : Char} {size : ℚ}
    {events : List (Int × Int × Rgba)} {v : CachedChar}
    (h : renderCharMiss c size events = some v) :
    v.width = max (if isWideChar c then ceilU32 (size * 0.6) * 2
      else ceilU32 (size * 0.6)) 4 ∧
    v.height = max (ceilU32 size) 4 ∧
    v.wide = isWideChar c ∧
    v.data.length = v.width * v.height * 4 := by
  simp only [renderCharMiss] at h
  split at h <;> split at h <;> simp_all [foldl_applyGlyphEvent_length] <;>
    (subst h; refine ⟨rfl, rfl, rfl, ?_⟩
     simp [foldl_applyGlyphEvent_length])

/-- The invariant satisfied by every `CHAR_CACHE` entry: the RGBA payload has
exactly `width * height * 4` bytes, both dimensions are at least 4, the wide
flag matches the wide classification of the keyed character code, and the
dimensions follow the cell formulas for the size the entry was rendered at
(a size whose `u32` truncation is the key's size component). -/
def cachedCharInv (key : Nat × Nat × Nat) (v : CachedChar) : Prop :=
  v.data.length = v.width * v.height * 4 ∧
  4 ≤ v.width ∧ 4 ≤ v.height ∧
  v.wide = isWideCode key.1 ∧
  ∃ s : ℚ, toU32 s = key.2.1 ∧
    v.width = max (if v.wide then ceilU32 (s * 0.6) * 2 else ceilU32 (s * 0.6)) 4 ∧
    v.height = max (ceilU32 s) 4

/-- C10 (amended): every successful `render_char_cosmic` result has
`rgba_bytes.length = width * height * 4`, dimensions at least 4, and
`is_wide = is_wide_char(c)`; its width and height follow the formulas
`max(4, ceil(size*0.6) doubled when wide)` / `max(4, ceil(size))` for *the
size the bitmap was rendered at* — a size with the same `u32` truncation as
the requested one.  On a cache miss that size is the requested size itself.
The cache-entry invariant is preserved by every call. -/
theorem render_char_cosmic_result_invariant (c : Char) (size : ℚ) (color : Rgba)
    (events : List (Int × Int × Rgba)) (cache : CharCache)
    (hcache : ∀ e ∈ cache, cachedCharInv e.1 e.2) :
    (∀ e ∈ (renderCharCosmic c size color events cache).2, cachedCharInv e.1 e.2) ∧
    (∀ v, (renderCharCosmic c size color events cache).1 = some v →
      v.data.length = v.width * v.height * 4 ∧ 4 ≤ v.width ∧ 4 ≤ v.height ∧
      v.wide = isWideChar c ∧
      ∃ s : ℚ, toU32 s = toU32 size ∧
        v.width = max (if isWideChar c then ceilU32 (s * 0.6) * 2
          else ceilU32 (s * 0.6)) 4 ∧
        v.height = max (ceilU32 s) 4) ∧
    (lruLookup (cacheKey c size color) cache = none →
      ∀ v, (renderCharCosmic c size color events cache).1 = some v →
        v.width = max (if isWideChar c then ceilU32 (size * 0.6) * 2
          else ceilU32 (size * 0.6)) 4 ∧
        v.height = max (ceilU32 size) 4) := by
  rcases hl : lruLookup (cacheKey c size color) cache with _ | v0
  · -- cache miss
    rcases hm : renderCharMiss c size events with _ | result
    · have hre : renderCharCosmic c size color events cache = (none, cache) := by
        simp [renderCharCosmic, lruGet, hl, hm]
      rw [hre]
      refine ⟨hcache, ?_, ?_⟩
      · intro v hv; simp at hv
      · intro _ v hv; simp at hv
    · have hre : renderCharCosmic c size color events cache =
          (some result, lruPut charCacheCap (cacheKey c size color) result cache) := by
        simp [renderCharCosmic, lruGet, hl, hm]
      obtain ⟨hW, hH, hWide, hLen⟩ := renderCharMiss_some_facts hm
      have hmain : result.data.length = result.width * result.height * 4 ∧
          4 ≤ result.width ∧ 4 ≤ result.height ∧
          result.wide = isWideChar c ∧
          ∃ s : ℚ, toU32 s = toU32 size ∧
            result.width = max (if isWideChar c then ceilU32 (s * 0.6) * 2
              else ceilU32 (s * 0.6)) 4 ∧
            result.height = max (ceilU32 s) 4 := by
        refine ⟨hLen, ?_, ?_, hWide, size, rfl, hW, hH⟩
        · rw [hW]; exact Nat.le_max_right _ 4
        · rw [hH]; exact Nat.le_max_right _ 4
      rw [hre]
      refine ⟨?_, ?_, ?_⟩
      · intro e he
        simp only [lruPut] at he
        have he2 := List.mem_of_mem_take he
        rcases List.mem_cons.mp he2 with h1 | h2
        · subst h1
          obtain ⟨f1, f2, f3, f4, s, f5, f6, f7⟩ := hmain
          exact ⟨f1, f2, f3, f4, s, f5, by rw [f6, f4], f7⟩
        · exact hcache e (mem_of_mem_lruErase h2)
      · intro v hv
        have hv2 := Option.some.inj hv
        subst hv2
        exact hmain
      · intro _ v hv
        have hv2 := Option.some.inj hv
        subst hv2
        exact ⟨hW, hH⟩
  · -- cache hit: the promoted entry was rendered at some earlier size with
    -- the same u32 truncation
    have hre : renderCharCosmic c size color events cache =
        (some v0, (cacheKey c size color, v0) ::
          lruErase (cacheKey c size color) cache) := by
      simp [renderCharCosmic, lruGet, hl]
    have hmem := lruLookup_mem hl
    obtain ⟨hlen, hw, hh, hwide, s, hs, hwidth, hheight⟩ := hcache _ hmem
    rw [hre]
    refine ⟨?_, ?_, ?_⟩
    · intro e he
      rcases List.mem_cons.mp he with h1 | h2
      · subst h1
        exact ⟨hlen, hw, hh, hwide, s, hs, hwidth, hheight⟩
      · exact hcache e (mem_of_mem_lruErase h2)
    · intro v hv
      have hv2 := Option.some.inj hv
      subst hv2
      have hwc : v0.wide = isWideChar c := hwide
      refine ⟨hlen, hw, hh, hwc, s, hs, ?_, hheight⟩
      rw [← hwc]
      exact hwidth
    · intro hnone
      exact absurd hnone (by simp)

/-- The all-white color used in the C10 scenario. -/
def whitePx : Rgba := ⟨255, 255, 255, 255⟩

/-- The cache state after a successful render of 'a' at size 16.0. -/
def c10cache : CharCache :=
  (renderCharCosmic 'a' 16 whitePx [(0, 0, whitePx)] []).2

/-- C10 counterexample: after caching 'a' at size 16.0, a call at size 16.9
(same cache key) returns the cached bitmap with height 16 — not
`max(4, ceil(16.9)) = 17` as the claim requires for every successful
result. -/
theorem render_char_cosmic_dims_counterexample :
    ((renderCharCosmic 'a' (169 / 10) whitePx [] c10cache).1.map
        CachedChar.height) = some 16 ∧
      max 4 (ceilU32 (169 / 10)) = 17 := by
  have hf16 : toU32 (16 : ℚ) = 16 := by
    simp only [toU32]
    rw [if_neg (by norm_num),
      show (⌊(16 : ℚ)⌋ : ℤ) = 16 by rw [Int.floor_eq_iff]; norm_num]
    rfl
  have hf169 : toU32 (169 / 10 : ℚ) = 16 := by
    simp only [toU32]
    rw [if_neg (by norm_num),
      show (⌊(169 / 10 : ℚ)⌋ : ℤ) = 16 by rw [Int.floor_eq_iff]; norm_num]
    rfl
  have hkeys : cacheKey 'a' (169 / 10 : ℚ) whitePx = cacheKey 'a' 16 whitePx := by
    simp [cacheKey, hf16, hf169]
  have hcw : ceilU32 ((16 : ℚ) * 0.6) = 10 := by
    simp only [ceilU32]
    rw [show (⌈(16 : ℚ) * 0.6⌉ : ℤ) = 10 by rw [Int.ceil_eq_iff]; norm_num]
    rfl
  have hch : ceilU32 (16 : ℚ) = 16 := by
    simp only [ceilU32]
    rw [show (⌈(16 : ℚ)⌉ : ℤ) = 16 by rw [Int.ceil_eq_iff]; norm_num]
    rfl
  have hst : (List.foldl (applyGlyphEvent 10 16)
      (List.replicate (10 * 16 * 4) 0, 0) [((0 : Int), (0 : Int), whitePx)]).2 = 1 := by
    norm_num [applyGlyphEvent, whitePx]
  have hmiss : renderCharMiss 'a' 16 [((0 : Int), (0 : Int), whitePx)] =
      some ⟨10, 16, false, (List.foldl (applyGlyphEvent 10 16)
        (List.replicate (10 * 16 * 4) 0, 0) [((0 : Int), (0 : Int), whitePx)]).1⟩ := by
    simp only [renderCharMiss, show isWideChar 'a' = false from rfl, if_false,
      Bool.false_eq_true, hcw, hch,
      show (10 : Nat) ⊔ 4 = 10 from rfl, show (16 : Nat) ⊔ 4 = 16 from rfl]
    rw [if_neg (by rw [hst]; norm_num)]
  have hcachev : c10cache = lruPut charCacheCap (cacheKey 'a' 16 whitePx)
      ⟨10, 16, false, (List.foldl (applyGlyphEvent 10 16)
        (List.replicate (10 * 16 * 4) 0, 0) [((0 : Int), (0 : Int), whitePx)]).1⟩ [] := by
    simp only [c10cache, renderCharCosmic, lruGet,
      show lruLookup (cacheKey 'a' 16 whitePx) ([] : CharCache) = none from rfl,
      hmiss]
  have hlook : lruLookup (cacheKey 'a' (169 / 10) whitePx) c10cache =
      some ⟨10, 16, false, (List.foldl (applyGlyphEvent 10 16)
        (List.replicate (10 * 16 * 4) 0, 0) [((0 : Int), (0 : Int), whitePx)]).1⟩ := by
    rw [hkeys, hcachev]
    exact lruPut_lookup_self charCacheCap (by norm_num [charCacheCap]) _ _ _
  constructor
  · simp only [renderCharCosmic, lruGet, hlook]
    rfl
  · simp only [ceilU32]
    rw [show (⌈(169 / 10 : ℚ)⌉ : ℤ) = 17 by rw [Int.ceil_eq_iff]; norm_num]
    rfl

/-- Witness for the amended C10 theorem: a fresh render of 'a' at size 16. -/
theorem render_char_cosmic_result_invariant_witness :
    (∀ e ∈ (renderCharCosmic 'a' 16 whitePx [(0, 0, whitePx)] []).2,
      cachedCharInv e.1 e.2) ∧
    (∀ v, (renderCharCosmic 'a' 16 whitePx [(0, 0, whitePx)] []).1 = some v →
      v.data.length = v.width * v.height * 4 ∧ 4 ≤ v.width ∧ 4 ≤ v.height ∧
      v.wide = isWideChar 'a' ∧
      ∃ s : ℚ, toU32 s = toU32 16 ∧
        v.width = max (if isWideChar 'a' then ceilU32 (s * 0.6) * 2
          else ceilU32 (s * 0.6)) 4 ∧
        v.height = max (ceilU32 s) 4) ∧
    (lruLookup (cacheKey 'a' 16 whitePx) ([] : CharCache) = none →
      ∀ v, (renderCharCosmic 'a' 16 whitePx [(0, 0, whitePx)] []).1 = some v →
        v.width = max (if isWideChar 'a' then ceilU32 ((16 : ℚ) * 0.6) * 2
          else ceilU32 ((16 : ℚ) * 0.6)) 4 ∧
        v.height = max (ceilU32 (16 : ℚ)) 4) :=
  render_char_cosmic_result_invariant 'a' 16 whitePx [(0, 0, whitePx)] []
    (by intro e he; simp at he)

/-! ## C9: keyboard `render`/`handle_touch` layout consistency -/

theorem kbRowRects_x_ge (bw rowY bh : Nat) (btns : List KButton) (x0 : Nat) :
    ∀ rect ∈ kbRowRects bw rowY bh btns x0, x0 ≤ rect.x := by
  induction btns generalizing x0 with
  | nil => intro rect h; simp [kbRowRects] at h
  | cons b rest ih =>
    intro rect h
    simp only [kbRowRects, List.mem_cons] at h
    rcases h with h1 | h2
    · subst h1; exact Nat.le_refl _
    · have := ih _ rect h2
      omega

theorem kbRowRects_y (bw rowY bh : Nat) (btns : List KButton) (x0 : Nat) :
    ∀ rect ∈ kbRowRects bw rowY bh btns x0, rect.y = rowY ∧ rect.height = bh := by
  induction btns generalizing x0 with
  | nil => intro rect h; simp [kbRowRects] at h
  | cons b rest ih =>
    intro rect h
    simp only [kbRowRects, List.mem_cons] at h
    rcases h with h1 | h2
    · subst h1; exact ⟨rfl, rfl⟩
    · exact ih _ rect h2

/-- A touch x-coordinate inside the rectangle laid out for a button is hit by
the scan loop of `handle_touch` (the rectangles of a row are disjoint since
consecutive offsets advance past each button). -/
theorem kbScanRow_of_rect (bw rowY bh tx : Nat) (btns : List KButton)
    (x0 : Nat) (rect : BtnRect) (hmem : rect ∈ kbRowRects bw rowY bh btns x0)
    (hx1 : rect.x ≤ tx) (hx2 : tx < rect.x + rect.width) :
    kbScanRow bw tx btns x0 = some rect.keyName := by
  induction btns generalizing x0 with
  | nil => simp [kbRowRects] at hmem
  | cons b rest ih =>
    simp only [kbRowRects, List.mem_cons] at hmem
    rcases hmem with h1 | h2
    · subst h1
      simp only [kbScanRow]
      rw [if_pos ⟨hx1, hx2⟩]
    · have hge := kbRowRects_x_ge bw rowY bh rest (x0 + bw * b.widthUnits + 2) rect h2
      simp only [kbScanRow]
      rw [if_neg (by omega)]
      exact ih _ h2

/-- A successful scan hit corresponds to a laid-out rectangle containing the
touch x-coordinate. -/
theorem kbScanRow_some_rect (bw rowY bh tx : Nat) (btns : List KButton)
    (x0 : Nat) (k : KeyName) (h : kbScanRow bw tx btns x0 = some k) :
    ∃ rect ∈ kbRowRects bw rowY bh btns x0,
      rect.keyName = k ∧ rect.x ≤ tx ∧ tx < rect.x + rect.width := by
  induction btns generalizing x0 with
  | nil => simp [kbScanRow] at h
  | cons b rest ih =>
    simp only [kbScanRow] at h
    split at h
    · refine ⟨⟨b.keyName, x0, rowY, bw * b.widthUnits, bh⟩, ?_, ?_, ?_, ?_⟩
      · simp [kbRowRects]
      · exact Option.some.inj h
      · rename_i hcond; exact hcond.1
      · rename_i hcond; exact hcond.2
    · obtain ⟨rect, hmem, hk, hx1, hx2⟩ := ih _ h
      exact ⟨rect, by simp [kbRowRects, hmem], hk, hx1, hx2⟩

/-- C9: `render` and `handle_touch` agree on the button layout: every touch
coordinate inside the rectangle that `render` paints for a button makes
`handle_touch` (with the same geometry parameters) return that button's key
name, and a coordinate outside all button rectangles makes it return
none. -/
theorem keyboard_touch_render_consistency
    (windowWidth keyboardY buttonHeight x y : Nat) :
    (∀ rect ∈ renderButtonRects windowWidth keyboardY buttonHeight,
      rect.containsPt x y →
        handleTouch x y windowWidth keyboardY buttonHeight = some rect.keyName) ∧
    ((∀ rect ∈ renderButtonRects windowWidth keyboardY buttonHeight,
        ¬ rect.containsPt x y) →
      handleTouch x y windowWidth keyboardY buttonHeight = none) := by
  constructor
  · intro rect hmem hin
    obtain ⟨hx1, hx2, hy1, hy2⟩ := hin
    simp only [renderButtonRects, List.mem_append] at hmem
    rcases hmem with h1 | h2
    · obtain ⟨hry, hrh⟩ := kbRowRects_y _ _ _ _ _ rect h1
      simp only [handleTouch]
      rw [if_pos (by omega)]
      rw [kbScanRow_of_rect _ _ _ _ _ _ rect h1 hx1 hx2]
    · obtain ⟨hry, hrh⟩ := kbRowRects_y _ _ _ _ _ rect h2
      simp only [handleTouch]
      rw [if_neg (by omega)]
      rw [if_pos (by omega)]
      rw [kbScanRow_of_rect _ _ _ _ _ _ rect h2 hx1 hx2]
  · intro hall
    rcases hres : handleTouch x y windowWidth keyboardY buttonHeight with _ | k
    · rfl
    · exfalso
      simp only [handleTouch] at hres
      by_cases hy1 : keyboardY + 1 ≤ y ∧ y < keyboardY + 1 + buttonHeight
      · rw [if_pos hy1] at hres
        rcases hscan : kbScanRow (kbButtonWidth windowWidth) x kbRow1
            (kbKeyboardX windowWidth) with _ | k1
        · rw [hscan] at hres
          dsimp only at hres
          split at hres
          · rename_i hy2
            obtain ⟨rect, hmem, hk, hx1, hx2⟩ :=
              kbScanRow_some_rect _ (keyboardY + buttonHeight + 3) buttonHeight
                _ _ _ _ hres
            obtain ⟨hry, hrh⟩ := kbRowRects_y _ _ _ _ _ rect hmem
            refine hall rect ?_ ⟨hx1, hx2, by omega, by omega⟩
            simp only [renderButtonRects, List.mem_append]
            exact Or.inr hmem
          · exact absurd hres (by simp)
        · rw [hscan] at hres
          obtain ⟨rect, hmem, hk, hx1, hx2⟩ :=
            kbScanRow_some_rect _ (keyboardY + 1) buttonHeight _ _ _ _ hscan
          obtain ⟨hry, hrh⟩ := kbRowRects_y _ _ _ _ _ rect hmem
          refine hall rect ?_ ⟨hx1, hx2, by omega, by omega⟩
          simp only [renderButtonRects, List.mem_append]
          exact Or.inl hmem
      · rw [if_neg hy1] at hres
        dsimp only at hres
        split at hres
        · rename_i hy2
          obtain ⟨rect, hmem, hk, hx1, hx2⟩ :=
            kbScanRow_some_rect _ (keyboardY + buttonHeight + 3) buttonHeight
              _ _ _ _ hres
          obtain ⟨hry, hrh⟩ := kbRowRects_y _ _ _ _ _ rect hmem
          refine hall rect ?_ ⟨hx1, hx2, by omega, by omega⟩
          simp only [renderButtonRects, List.mem_append]
          exact Or.inr hmem
        · exact absurd hres (by simp)

/-- Witness for C9: with window width 700, keyboard y 1000 and button height
40, the point (5, 1001) lies in the ESC rectangle and is mapped to ESC; the
point (0, 0) lies outside all rectangles and is mapped to none. -/
theorem keyboard_touch_render_consistency_witness :
    handleTouch 5 1001 700 1000 40 = some KeyName.esc ∧
      handleTouch 0 0 700 1000 40 = none :=
  ⟨(keyboard_touch_render_consistency 700 1000 40 5 1001).1
      ⟨KeyName.esc, 0, 1001, 100, 40⟩ (by decide) (by decide),
    (keyboard_touch_render_consistency 700 1000 40 0 0).2 (by decide)⟩

/-! ## Safety of the pixel pipeline (towards C1, C2, C3)

Every helper of `render_to_surface_with_offset` is shown total (it never
fails, i.e. never indexes out of bounds) and destination-length preserving. -/

theorem storeByte_of_lt {d : Bytes} {i : Nat} (v : Nat) (h : i < d.length) :
    storeByte d i v = some (d.set i v) := by
  simp [storeByte, h]

theorem get?_is_some_of_lt {d : Bytes} {i : Nat} (h : i < d.length) :
    ∃ v, d.get? i = some v := by
  cases hg : d.get? i
  · exact absurd (List.get?_eq_none.mp hg) (by omega)
  · exact ⟨_, rfl⟩

theorem writeRgbaAt_safe (d : Bytes) (idx : Nat) (c : Rgba) :
    ∃ d2, writeRgbaAt d idx c = some d2 ∧ d2.length = d.length := by
  unfold writeRgbaAt
  split
  · rename_i h
    rw [storeByte_of_lt c.r (by omega), Option.bind_eq_bind', Option.some_bind',
      storeByte_of_lt c.g (by simp only [List.length_set]; omega), Option.bind_eq_bind', Option.some_bind',
      storeByte_of_lt c.b (by simp only [List.length_set]; omega), Option.bind_eq_bind', Option.some_bind',
      storeByte_of_lt c.a (by simp only [List.length_set]; omega)]
    exact ⟨_, rfl, by simp⟩
  · exact ⟨d, rfl, rfl⟩

theorem bgCols_safe (stride windowWidth py pxStart : Nat) (bg : Rgba) :
    ∀ n pxOffset d, ∃ d2,
      bgCols stride windowWidth py pxStart bg n pxOffset d = some d2 ∧
      d2.length = d.length := by
  intro n
  induction n with
  | zero => intro off d; exact ⟨d, rfl, rfl⟩
  | succ m ih =>
    intro off d
    simp only [bgCols]
    split
    · exact ⟨d, rfl, rfl⟩
    · obtain ⟨d1, hw, hl1⟩ := writeRgbaAt_safe d ((py * stride + (pxStart + off)) * 4) bg
      rw [hw, Option.bind_eq_bind', Option.some_bind']
      obtain ⟨d2, hrec, hl2⟩ := ih (off + 1) d1
      rw [hrec]
      exact ⟨d2, rfl, by omega⟩

theorem bgRows_safe (stride windowWidth windowHeight pyStart pxStart cellWidth : Nat)
    (bg : Rgba) :
    ∀ n pyOffset d, ∃ d2,
      bgRows stride windowWidth windowHeight pyStart pxStart cellWidth bg n pyOffset d =
        some d2 ∧ d2.length = d.length := by
  intro n
  induction n with
  | zero => intro off d; exact ⟨d, rfl, rfl⟩
  | succ m ih =>
    intro off d
    simp only [bgRows]
    split
    · exact ⟨d, rfl, rfl⟩
    · obtain ⟨d1, hw, hl1⟩ := bgCols_safe stride windowWidth (pyStart + off) pxStart bg
        cellWidth 0 d
      rw [hw, Option.bind_eq_bind', Option.some_bind']
      obtain ⟨d2, hrec, hl2⟩ := ih (off + 1) d1
      rw [hrec]
      exact ⟨d2, rfl, by omega⟩

theorem renderCellBackground_safe (stride windowWidth windowHeight pxStart pyStart
    cellWidth rowHeight : Nat) (bg : Rgba) (d : Bytes) :
    ∃ d2, renderCellBackground stride windowWidth windowHeight pxStart pyStart
      cellWidth rowHeight bg d = some d2 ∧ d2.length = d.length :=
  bgRows_safe stride windowWidth windowHeight pyStart pxStart cellWidth bg rowHeight 0 d

theorem bmpPixel_safe (stride destY destX : Nat) (src : Rgba) (d : Bytes) :
    ∃ d2, bmpPixel stride destY destX src d = some d2 ∧ d2.length = d.length := by
  simp only [bmpPixel]
  split
  · exact ⟨d, rfl, rfl⟩
  · split
    · exact ⟨d, rfl, rfl⟩
    · rename_i hidx
      obtain ⟨v0, h0⟩ := get?_is_some_of_lt
        (show (destY * stride + destX) * 4 < d.length by omega)
      obtain ⟨v1, h1⟩ := get?_is_some_of_lt
        (show (destY * stride + destX) * 4 + 1 < d.length by omega)
      obtain ⟨v2, h2⟩ := get?_is_some_of_lt
        (show (destY * stride + destX) * 4 + 2 < d.length by omega)
      obtain ⟨v3, h3⟩ := get?_is_some_of_lt
        (show (destY * stride + destX) * 4 + 3 < d.length by omega)
      rw [h0, Option.bind_eq_bind', Option.some_bind', h1, Option.bind_eq_bind', Option.some_bind', h2, Option.bind_eq_bind', Option.some_bind', h3,
        Option.bind_eq_bind', Option.some_bind',
        storeByte_of_lt _ (by omega), Option.bind_eq_bind', Option.some_bind',
        storeByte_of_lt _ (by simp only [List.length_set]; omega), Option.bind_eq_bind', Option.some_bind',
        storeByte_of_lt _ (by simp only [List.length_set]; omega), Option.bind_eq_bind', Option.some_bind',
        storeByte_of_lt _ (by simp only [List.length_set]; omega)]
      exact ⟨_, rfl, by simp⟩

theorem bmpCols_safe (stride windowWidth : Nat) (data : Bytes)
    (bitmapWidth srcY px offsetX destY : Nat) (scale : ℚ) :
    ∀ n destXRel d, ∃ d2,
      bmpCols stride windowWidth data bitmapWidth srcY px offsetX destY scale n
        destXRel d = some d2 ∧ d2.length = d.length := by
  intro n
  induction n with
  | zero => intro rel d; exact ⟨d, rfl, rfl⟩
  | succ m ih =>
    intro rel d
    simp only [bmpCols]
    split
    · exact ih (rel + 1) d
    · split
      · exact ih (rel + 1) d
      · split
        · exact ih (rel + 1) d
        · rename_i hsrc
          obtain ⟨v0, h0⟩ := get?_is_some_of_lt (d := data)
            (show (srcY * bitmapWidth + ⌊(rel : ℚ) / scale⌋.toNat) * 4 < data.length
              by omega)
          obtain ⟨v1, h1⟩ := get?_is_some_of_lt (d := data)
            (show (srcY * bitmapWidth + ⌊(rel : ℚ) / scale⌋.toNat) * 4 + 1 < data.length
              by omega)
          obtain ⟨v2, h2⟩ := get?_is_some_of_lt (d := data)
            (show (srcY * bitmapWidth + ⌊(rel : ℚ) / scale⌋.toNat) * 4 + 2 < data.length
              by omega)
          obtain ⟨v3, h3⟩ := get?_is_some_of_lt (d := data)
            (show (srcY * bitmapWidth + ⌊(rel : ℚ) / scale⌋.toNat) * 4 + 3 < data.length
              by omega)
          rw [h0, Option.bind_eq_bind', Option.some_bind', h1, Option.bind_eq_bind', Option.some_bind', h2, Option.bind_eq_bind', Option.some_bind', h3, Option.bind_eq_bind', Option.some_bind']
          obtain ⟨d1, hp, hl1⟩ := bmpPixel_safe stride destY (px + offsetX + rel)
            ⟨v0, v1, v2, v3⟩ d
          rw [hp, Option.bind_eq_bind', Option.some_bind']
          obtain ⟨d2, hrec, hl2⟩ := ih (rel + 1) d1
          rw [hrec]
          exact ⟨d2, rfl, by omega⟩

theorem bmpRows_safe (stride windowWidth windowHeight : Nat) (data : Bytes)
    (bitmapWidth bitmapHeight px py offsetX scaledWidth : Nat) (scale : ℚ) :
    ∀ n destYRel d, ∃ d2,
      bmpRows stride windowWidth windowHeight data bitmapWidth bitmapHeight px py
        offsetX scaledWidth scale n destYRel d = some d2 ∧
      d2.length = d.length := by
  intro n
  induction n with
  | zero => intro rel d; exact ⟨d, rfl, rfl⟩
  | succ m ih =>
    intro rel d
    simp only [bmpRows]
    split
    · exact ih (rel + 1) d
    · split
      · exact ih (rel + 1) d
      · obtain ⟨d1, hc, hl1⟩ := bmpCols_safe stride windowWidth data bitmapWidth
          _ px offsetX (py + rel) scale scaledWidth 0 d
        rw [hc, Option.bind_eq_bind', Option.some_bind']
        obtain ⟨d2, hrec, hl2⟩ := ih (rel + 1) d1
        rw [hrec]
        exact ⟨d2, rfl, by omega⟩

theorem renderBitmap_safe (r : Rasterizer) (width height : Nat) (data : Bytes)
    (px py stride windowWidth windowHeight cellWidthMultiplier : Nat) (d : Bytes) :
    ∃ d2, renderBitmap r width height data px py stride windowWidth windowHeight
      cellWidthMultiplier d = some d2 ∧ d2.length = d.length := by
  simp only [renderBitmap]
  split
  · exact ⟨d, rfl, rfl⟩
  · exact bmpRows_safe _ _ _ _ _ _ _ _ _ _ _ _ _ d

theorem fbCols_safe (stride : Nat) (color : Rgba) (y : Nat) :
    ∀ n x d, ∃ d2, fbCols stride color y n x d = some d2 ∧
      d2.length = d.length := by
  intro n
  induction n with
  | zero => intro x d; exact ⟨d, rfl, rfl⟩
  | succ m ih =>
    intro x d
    simp only [fbCols]
    obtain ⟨d1, hw, hl1⟩ := writeRgbaAt_safe d ((y * stride + x) * 4) color
    rw [hw, Option.bind_eq_bind', Option.some_bind']
    obtain ⟨d2, hrec, hl2⟩ := ih (x + 1) d1
    rw [hrec]
    exact ⟨d2, rfl, by omega⟩

theorem fbRows_safe (stride : Nat) (color : Rgba) (startX countX : Nat) :
    ∀ n y d, ∃ d2, fbRows stride color startX countX n y d = some d2 ∧
      d2.length = d.length := by
  intro n
  induction n with
  | zero => intro y d; exact ⟨d, rfl, rfl⟩
  | succ m ih =>
    intro y d
    simp only [fbRows]
    obtain ⟨d1, hc, hl1⟩ := fbCols_safe stride color y countX startX d
    rw [hc, Option.bind_eq_bind', Option.some_bind']
    obtain ⟨d2, hrec, hl2⟩ := ih (y + 1) d1
    rw [hrec]
    exact ⟨d2, rfl, by omega⟩

theorem drawFallbackBlock_safe (r : Rasterizer) (px py : Nat) (color : Rgba)
    (stride windowWidth windowHeight : Nat) (d : Bytes) :
    ∃ d2, drawFallbackBlock r px py color stride windowWidth windowHeight d =
      some d2 ∧ d2.length = d.length := by
  simp only [drawFallbackBlock]
  split
  · exact ⟨d, rfl, rfl⟩
  · exact fbRows_safe _ _ _ _ _ _ d

theorem drawChar_safe (r : Rasterizer) (glyph : Char → Rgba → Option CachedChar)
    (c : Char) (px py : Nat) (color : Rgba)
    (stride windowWidth windowHeight : Nat) (d : Bytes) :
    ∃ d2, drawChar r glyph c px py color stride windowWidth windowHeight d =
      some d2 ∧ d2.length = d.length := by
  unfold drawChar
  rcases glyph c color with _ | g
  · exact drawFallbackBlock_safe _ _ _ _ _ _ _ d
  · dsimp only
    by_cases hg : 0 < g.width ∧ 0 < g.height ∧ g.data ≠ []
    · rw [if_pos hg]
      exact renderBitmap_safe _ _ _ _ _ _ _ _ _ _ d
    · rw [if_neg hg]
      exact drawFallbackBlock_safe _ _ _ _ _ _ _ d

theorem drawChars_safe (r : Rasterizer) (glyph : Char → Rgba → Option CachedChar)
    (pxStart cellWidth pyStart : Nat) (fg : Rgba)
    (stride windowWidth windowHeight : Nat) :
    ∀ (chars : List Char) (charX : Nat) (d : Bytes), ∃ d2,
      drawChars r glyph pxStart cellWidth pyStart fg stride windowWidth windowHeight
        chars charX d = some d2 ∧ d2.length = d.length := by
  intro chars
  induction chars with
  | nil => intro charX d; exact ⟨d, rfl, rfl⟩
  | cons ch rest ih =>
    intro charX d
    simp only [drawChars]
    split
    · exact ih (charX + r.fontWidth) d
    · split
      · obtain ⟨d1, hd, hl1⟩ := drawChar_safe r glyph ch charX pyStart fg stride
          windowWidth windowHeight d
        rw [hd, Option.bind_eq_bind', Option.some_bind']
        obtain ⟨d2, hrec, hl2⟩ := ih _ d1
        rw [hrec]
        exact ⟨d2, rfl, by omega⟩
      · exact ⟨d, rfl, rfl⟩

/-! ## The rendered-cell events of a frame, as a pure function

`colEvents`/`rowEvents` recompute, without touching pixels, exactly the
`CellEvent`s the render loops record; the equality lemmas below show the
render loops return them. -/

/-- The events of the column loop (mirrors the control flow of
`renderCols`). -/
def colEvents (r : Rasterizer) (backend : AndroidBackend)
    (windowWidth termY : Nat) : Nat → Nat → Nat → List CellEvent
  | 0, _, _ => []
  | n + 1, termX, skipUntil =>
    if termX < skipUntil then
      colEvents r backend windowWidth termY n (termX + 1) skipUntil
    else
      let cell := (backend.get_cell termX termY).getD RCell.empty
      let pxStart := termX * r.fontWidth
      if windowWidth ≤ pxStart then
        colEvents r backend windowWidth termY n (termX + 1) skipUntil
      else
        let firstCh := cell.symbol.headD ' '
        let charIsWide := isWideChar firstCh
        let cellMult := if charIsWide then 2 else 1
        let pxEnd := (termX + cellMult) * r.fontWidth
        let cellWidth := min (pxEnd - pxStart) (windowWidth - pxStart)
        if cellWidth = 0 then
          colEvents r backend windowWidth termY n (termX + 1) skipUntil
        else
          ⟨termY, termX, pxStart, cellWidth, charIsWide⟩ ::
            colEvents r backend windowWidth termY n (termX + 1)
              (if charIsWide then termX + 2 else skipUntil)

/-- The events of the row loop (mirrors the control flow of `renderRows`). -/
def rowEvents (r : Rasterizer) (backend : AndroidBackend)
    (windowWidth topOffset maxRenderHeight bufferWidth : Nat) :
    Nat → Nat → List CellEvent
  | 0, _ => []
  | n + 1, termY =>
    let pyStart := termY * r.fontHeight + topOffset
    if maxRenderHeight ≤ pyStart then
      rowEvents r backend windowWidth topOffset maxRenderHeight bufferWidth n (termY + 1)
    else
      let pyEnd := (termY + 1) * r.fontHeight + topOffset
      let rowHeight := min (pyEnd - pyStart) (maxRenderHeight - pyStart)
      if rowHeight = 0 then
        rowEvents r backend windowWidth topOffset maxRenderHeight bufferWidth n (termY + 1)
      else
        colEvents r backend windowWidth termY bufferWidth 0 0 ++
          rowEvents r backend windowWidth topOffset maxRenderHeight bufferWidth n (termY + 1)

/-- The full event list of `render_to_surface_with_offset` ([] when the
destination is too small and the render returns early). -/
def renderEvents (r : Rasterizer) (backend : AndroidBackend) (dest : Bytes)
    (stride windowWidth windowHeight topOffset bottomOffset : Nat) :
    List CellEvent :=
  if dest.length < stride * windowHeight * 4 then []
  else
    rowEvents r backend windowWidth topOffset (windowHeight - bottomOffset)
      backend.buffer_area.width backend.buffer_area.height 0

theorem renderCols_eq (r : Rasterizer) (glyph : Char → Rgba → Option CachedChar)
    (backend : AndroidBackend) (stride windowWidth windowHeight : Nat)
    (termY pyStart rowHeight : Nat) :
    ∀ n termX skipUntil d, ∃ out,
      renderCols r glyph backend stride windowWidth windowHeight termY pyStart
        rowHeight n termX skipUntil d =
        some (out, colEvents r backend windowWidth termY n termX skipUntil) ∧
      out.length = d.length := by
  intro n
  induction n with
  | zero => intro termX skip d; exact ⟨d, rfl, rfl⟩
  | succ m ih =>
    intro termX skip d
    simp only [renderCols, colEvents]
    by_cases h1 : termX < skip
    · rw [if_pos h1, if_pos h1]
      exact ih (termX + 1) skip d
    · rw [if_neg h1, if_neg h1]
      by_cases h2 : windowWidth ≤ termX * r.fontWidth
      · rw [if_pos h2, if_pos h2]
        exact ih (termX + 1) skip d
      · rw [if_neg h2, if_neg h2]
        split <;> split
        any_goals exact ih (termX + 1) skip d
        all_goals
          obtain ⟨d1, hbg, hl1⟩ := renderCellBackground_safe stride windowWidth
            windowHeight (termX * r.fontWidth) pyStart _ rowHeight _ d
        all_goals rw [hbg, Option.bind_eq_bind', Option.some_bind']
        all_goals split
        all_goals first
          | (obtain ⟨d2, hdc2, hl2⟩ := drawChars_safe r glyph _ _ pyStart _ stride
               windowWidth windowHeight _ _ d1
             rw [hdc2, Option.bind_eq_bind', Option.some_bind']
             obtain ⟨out, hrec, hl3⟩ := ih (termX + 1) _ d2
             rw [hrec, Option.bind_eq_bind', Option.some_bind']
             exact ⟨out, rfl, by omega⟩)
          | (rw [Option.bind_eq_bind', Option.some_bind']
             obtain ⟨out, hrec, hl3⟩ := ih (termX + 1) _ d1
             rw [hrec, Option.bind_eq_bind', Option.some_bind']
             exact ⟨out, rfl, by omega⟩)

theorem renderRows_eq (r : Rasterizer) (glyph : Char → Rgba → Option CachedChar)
    (backend : AndroidBackend) (stride windowWidth windowHeight : Nat)
    (topOffset maxRenderHeight bufferWidth : Nat) :
    ∀ n termY d, ∃ out,
      renderRows r glyph backend stride windowWidth windowHeight topOffset
        maxRenderHeight bufferWidth n termY d =
        some (out, rowEvents r backend windowWidth topOffset maxRenderHeight
          bufferWidth n termY) ∧
      out.length = d.length := by
  intro n
  induction n with
  | zero => intro termY d; exact ⟨d, rfl, rfl⟩
  | succ m ih =>
    intro termY d
    simp only [renderRows, rowEvents]
    split
    · exact ih (termY + 1) d
    · split
      · exact ih (termY + 1) d
      · obtain ⟨d1, hc, hl1⟩ := renderCols_eq r glyph backend stride windowWidth
          windowHeight termY _ _ bufferWidth 0 0 d
        rw [hc, Option.bind_eq_bind', Option.some_bind']
        obtain ⟨d2, hrec, hl2⟩ := ih (termY + 1) d1
        rw [hrec, Option.bind_eq_bind', Option.some_bind']
        exact ⟨d2, rfl, by omega⟩

/-- `render_to_surface_with_offset` always succeeds (no out-of-bounds write,
no panic), preserves the destination length, and records exactly
`renderEvents`. -/
theorem renderToSurfaceWithOffset_eq (r : Rasterizer)
    (glyph : Char → Rgba → Option CachedChar) (backend : AndroidBackend)
    (dest : Bytes) (stride windowWidth windowHeight topOffset bottomOffset : Nat) :
    ∃ out,
      renderToSurfaceWithOffset r glyph backend dest stride windowWidth windowHeight
        topOffset bottomOffset =
        some (out, renderEvents r backend dest stride windowWidth windowHeight
          topOffset bottomOffset) ∧
      out.length = dest.length := by
  simp only [renderToSurfaceWithOffset, renderEvents]
  split
  · exact ⟨dest, rfl, rfl⟩
  · exact renderRows_eq r glyph backend stride windowWidth windowHeight topOffset
      _ _ _ 0 dest

/-! ## Per-event facts of the column loop -/

/-- Every event of the column loop records its column's computed geometry:
its columns lie in range and past the skip cursor, its row is the loop's
row, its pixel start is `termX * font_width` and lies left of the window,
its wide flag is the wide classification of the cell's leading character,
and its clipped width is nonzero and follows the span formula. -/
theorem colEvents_spec (r : Rasterizer) (backend : AndroidBackend)
    (windowWidth termY : Nat) :
    ∀ n termX skip, ∀ ev ∈ colEvents r backend windowWidth termY n termX skip,
      termX ≤ ev.termX ∧ ev.termX < termX + n ∧ skip ≤ ev.termX ∧
      ev.termY = termY ∧
      ev.pxStart = ev.termX * r.fontWidth ∧ ev.pxStart < windowWidth ∧
      ev.wide = isWideChar
        (((backend.get_cell ev.termX ev.termY).getD RCell.empty).symbol.headD ' ') ∧
      ev.cellWidth = min ((ev.termX + if ev.wide then 2 else 1) * r.fontWidth -
        ev.pxStart) (windowWidth - ev.pxStart) ∧
      ev.cellWidth ≠ 0 := by
  intro n
  induction n with
  | zero => intro termX skip ev h; simp [colEvents] at h
  | succ m ih =>
    intro termX skip ev h
    simp only [colEvents] at h
    by_cases h1 : termX < skip
    · rw [if_pos h1] at h
      obtain ⟨e1, e2, e3, e4, e5, e6, e7, e8, e9⟩ := ih (termX + 1) skip ev h
      exact ⟨by omega, by omega, e3, e4, e5, e6, e7, e8, e9⟩
    · rw [if_neg h1] at h
      by_cases h2 : windowWidth ≤ termX * r.fontWidth
      · rw [if_pos h2] at h
        obtain ⟨e1, e2, e3, e4, e5, e6, e7, e8, e9⟩ := ih (termX + 1) skip ev h
        exact ⟨by omega, by omega, e3, e4, e5, e6, e7, e8, e9⟩
      · rw [if_neg h2] at h
        by_cases hcw : min ((termX + if isWideChar
              (((backend.get_cell termX termY).getD RCell.empty).symbol.headD ' ')
              then 2 else 1) * r.fontWidth - termX * r.fontWidth)
            (windowWidth - termX * r.fontWidth) = 0
        · rw [if_pos hcw] at h
          obtain ⟨e1, e2, e3, e4, e5, e6, e7, e8, e9⟩ := ih (termX + 1) skip ev h
          exact ⟨by omega, by omega, e3, e4, e5, e6, e7, e8, e9⟩
        · rw [if_neg hcw] at h
          rcases List.mem_cons.mp h with rfl | htail
          · refine ⟨?_, ?_, ?_, ?_, ?_, ?_, ?_, ?_, ?_⟩ <;> dsimp only <;>
              first | rfl | omega
          · have hskip : skip ≤ (if isWideChar
                (((backend.get_cell termX termY).getD RCell.empty).symbol.headD ' ')
                then termX + 2 else skip) := by
              split <;> omega
            obtain ⟨e1, e2, e3, e4, e5, e6, e7, e8, e9⟩ := ih (termX + 1) _ ev htail
            exact ⟨by omega, by omega, by omega, e4, e5, e6, e7, e8, e9⟩

/-- After a wide cell's event at column `c`, the column loop emits no event
for column `c + 1` in the same row. -/
theorem colEvents_no_wide_successor (r : Rasterizer) (backend : AndroidBackend)
    (windowWidth termY : Nat) :
    ∀ n termX skip, ∀ ev ∈ colEvents r backend windowWidth termY n termX skip,
      ev.wide = true →
      ∀ ev2 ∈ colEvents r backend windowWidth termY n termX skip,
        ev2.termX ≠ ev.termX + 1 := by
  intro n
  induction n with
  | zero => intro termX skip ev h; simp [colEvents] at h
  | succ m ih =>
    intro termX skip ev h hw ev2 h2
    simp only [colEvents] at h h2
    by_cases hc1 : termX < skip
    · rw [if_pos hc1] at h h2
      exact ih (termX + 1) skip ev h hw ev2 h2
    · rw [if_neg hc1] at h h2
      by_cases hc2 : windowWidth ≤ termX * r.fontWidth
      · rw [if_pos hc2] at h h2
        exact ih (termX + 1) skip ev h hw ev2 h2
      · rw [if_neg hc2] at h h2
        by_cases hcw : min ((termX + if isWideChar
              (((backend.get_cell termX termY).getD RCell.empty).symbol.headD ' ')
              then 2 else 1) * r.fontWidth - termX * r.fontWidth)
            (windowWidth - termX * r.fontWidth) = 0
        · rw [if_pos hcw] at h h2
          exact ih (termX + 1) skip ev h hw ev2 h2
        · rw [if_neg hcw] at h h2
          rcases List.mem_cons.mp h with rfl | htail
          · -- the wide event itself sets the skip cursor to termX + 2
            have hwide0 : isWideChar
                (((backend.get_cell termX termY).getD RCell.empty).symbol.headD ' ') =
                true := hw
            rw [if_pos hwide0, if_pos hwide0] at h2
            rcases List.mem_cons.mp h2 with rfl | htail2
            · dsimp only; omega
            · have := (colEvents_spec r backend windowWidth termY m (termX + 1)
                (termX + 2) ev2 htail2).2.2.1
              dsimp only
              omega
          · have hb := (colEvents_spec r backend windowWidth termY m (termX + 1) _
              ev htail).1
            rcases List.mem_cons.mp h2 with rfl | htail2
            · dsimp only
              omega
            · exact ih (termX + 1) _ ev htail hw ev2 htail2

/-- Every event of the row loop is an event of its own row's column loop. -/
theorem rowEvents_mem_colEvents (r : Rasterizer) (backend : AndroidBackend)
    (windowWidth topOffset maxRenderHeight bufferWidth : Nat) :
    ∀ n termY0, ∀ ev ∈ rowEvents r backend windowWidth topOffset maxRenderHeight
        bufferWidth n termY0,
      ev ∈ colEvents r backend windowWidth ev.termY bufferWidth 0 0 := by
  intro n
  induction n with
  | zero => intro termY0 ev h; simp [rowEvents] at h
  | succ m ih =>
    intro termY0 ev h
    simp only [rowEvents] at h
    by_cases hc1 : maxRenderHeight ≤ termY0 * r.fontHeight + topOffset
    · rw [if_pos hc1] at h
      exact ih (termY0 + 1) ev h
    · rw [if_neg hc1] at h
      by_cases hc2 : min ((termY0 + 1) * r.fontHeight + topOffset -
          (termY0 * r.fontHeight + topOffset))
          (maxRenderHeight - (termY0 * r.fontHeight + topOffset)) = 0
      · rw [if_pos hc2] at h
        exact ih (termY0 + 1) ev h
      · rw [if_neg hc2] at h
        rcases List.mem_append.mp h with h1 | h2
        · have hy := (colEvents_spec r backend windowWidth termY0 bufferWidth 0 0
            ev h1).2.2.2.1
          rwa [hy]
        · exact ih (termY0 + 1) ev h2

/-! ## C2: the render never writes out of bounds and never panics -/

/-- C2: for every destination slice, stride, window geometry, offsets,
backend contents and glyph pipeline behaviour, `render_to_surface_with_offset`
completes normally — every slice access in the model is a checked access that
fails on an out-of-bounds index, and the render always returns `some` — and
the destination keeps its length (no write outside the slice). -/
theorem render_total_and_in_bounds (r : Rasterizer)
    (glyph : Char → Rgba → Option CachedChar) (backend : AndroidBackend)
    (dest : Bytes) (stride windowWidth windowHeight topOffset bottomOffset : Nat) :
    ∃ out evs,
      renderToSurfaceWithOffset r glyph backend dest stride windowWidth windowHeight
        topOffset bottomOffset = some (out, evs) ∧
      out.length = dest.length := by
  obtain ⟨out, h, hl⟩ := renderToSurfaceWithOffset_eq r glyph backend dest stride
    windowWidth windowHeight topOffset bottomOffset
  exact ⟨out, _, h, hl⟩

/-! ## C3: buffer-too-small returns early without drawing -/

/-- C3: when the destination slice is strictly shorter than
`stride * window_height * 4`, the render returns early with the destination
untouched (the previous frame's pixels stay) and no error value: the
function completes normally having rendered no cell. -/
theorem render_buffer_too_small_no_write (r : Rasterizer)
    (glyph : Char → Rgba → Option CachedChar) (backend : AndroidBackend)
    (dest : Bytes) (stride windowWidth windowHeight topOffset bottomOffset : Nat)
    (h : dest.length < stride * windowHeight * 4) :
    renderToSurfaceWithOffset r glyph backend dest stride windowWidth windowHeight
      topOffset bottomOffset = some (dest, []) := by
  simp only [renderToSurfaceWithOffset]
  rw [if_pos h]

/-- Witness for C3: an empty destination with stride 1 and height 1. -/
theorem render_buffer_too_small_no_write_witness :
    ([] : Bytes).length < 1 * 1 * 4 ∧
      renderToSurfaceWithOffset ⟨3, 5, 5⟩ (fun _ _ => none) (AndroidBackend.new 1 1)
        [] 1 1 1 0 0 = some ([], []) :=
  ⟨by norm_num,
    render_buffer_too_small_no_write ⟨3, 5, 5⟩ (fun _ _ => none)
      (AndroidBackend.new 1 1) [] 1 1 1 0 0 (by norm_num)⟩

/-! ## C1: a wide cell spans two columns and its right neighbor is skipped -/

/-- C1: during `render_to_surface_with_offset`, a rendered cell whose leading
character is wide paints the horizontal span from `c * font_width` to
`(c + 2) * font_width` clipped to the window (two cell-widths), and no cell
body runs for column `c + 1` of the same row — no background fill and no
glyph draw happens there as an independent cell (the recorded events are
exactly the cells whose body, background fill included, executed). -/
theorem wide_cell_two_column_span_and_skip (r : Rasterizer)
    (glyph : Char → Rgba → Option CachedChar) (backend : AndroidBackend)
    (dest : Bytes) (stride windowWidth windowHeight topOffset bottomOffset : Nat)
    (out : Bytes) (evs : List CellEvent) (ev : CellEvent)
    (hrender : renderToSurfaceWithOffset r glyph backend dest stride windowWidth
      windowHeight topOffset bottomOffset = some (out, evs))
    (hev : ev ∈ evs)
    (hwide : isWideChar
      (((backend.get_cell ev.termX ev.termY).getD RCell.empty).symbol.headD ' ') =
      true) :
    ev.wide = true ∧
    ev.pxStart = ev.termX * r.fontWidth ∧
    ev.pxStart + ev.cellWidth = min ((ev.termX + 2) * r.fontWidth) windowWidth ∧
    ∀ ev2 ∈ evs, ev2.termY = ev.termY → ev2.termX ≠ ev.termX + 1 := by
  obtain ⟨out2, hr2, _⟩ := renderToSurfaceWithOffset_eq r glyph backend dest stride
    windowWidth windowHeight topOffset bottomOffset
  rw [hrender] at hr2
  have hevs : evs = renderEvents r backend dest stride windowWidth windowHeight
      topOffset bottomOffset := congrArg Prod.snd (Option.some.inj hr2)
  subst hevs
  unfold renderEvents at hev ⊢
  split at hev
  · simp at hev
  · have hcol := rowEvents_mem_colEvents r backend windowWidth topOffset
      (windowHeight - bottomOffset) backend.buffer_area.width
      backend.buffer_area.height 0 ev hev
    obtain ⟨e1, e2, e3, e4, e5, e6, e7, e8, e9⟩ := colEvents_spec r backend
      windowWidth ev.termY backend.buffer_area.width 0 0 ev hcol
    have hw : ev.wide = true := by rw [e7]; exact hwide
    refine ⟨hw, e5, ?_, ?_⟩
    · rw [hw] at e8
      simp only [if_pos] at e8
      have hmono : ev.termX * r.fontWidth ≤ (ev.termX + 2) * r.fontWidth :=
        Nat.mul_le_mul_right _ (by omega)
      rw [e5] at e6 e8 ⊢
      generalize hA : (ev.termX + 2) * r.fontWidth = A at *
      generalize hB : ev.termX * r.fontWidth = B at *
      omega
    · intro ev2 hev2 hy hx
      rename_i hbig
      rw [if_neg hbig] at hev2
      have hcol2 := rowEvents_mem_colEvents r backend windowWidth topOffset
        (windowHeight - bottomOffset) backend.buffer_area.width
        backend.buffer_area.height 0 ev2 hev2
      rw [hy] at hcol2
      exact colEvents_no_wide_successor r backend windowWidth ev.termY
        backend.buffer_area.width 0 0 ev hcol hw ev2 hcol2 hx

/-- The concrete C1 scenario: a 3×1 terminal holding the wide character '中'
at (0,0), a rasterizer with font 3×5 px (font size 5), a 13×5 window with
stride 13 and a zeroed 260-byte surface. -/
def c1Rast : Rasterizer := ⟨3, 5, 5⟩

/-- The C1 scenario backend. -/
def c1Backend : AndroidBackend :=
  (AndroidBackend.new 3 1).drawCells [(0, 0, ⟨['中'], RColor.reset, RColor.reset⟩)]

/-- The C1 scenario destination surface. -/
def c1Dest : Bytes := List.replicate 260 0

/-- The C1 scenario glyph oracle (shaping yields nothing; fallback path). -/
def c1Glyph : Char → Rgba → Option CachedChar := fun _ _ => none

/-- The events of the C1 scenario's render. -/
def c1Events : List CellEvent := renderEvents c1Rast c1Backend c1Dest 13 13 5 0 0

/-- The wide cell's event in the C1 scenario. -/
def c1Event : CellEvent := ⟨0, 0, 0, 6, true⟩

set_option maxRecDepth 8000 in
/-- Witness for C1 at the concrete scenario: the '中' cell's event spans
columns 0–6 (two cell-widths of 3 px) and no event of the row touches
column 1. -/
theorem wide_cell_two_column_span_and_skip_witness :
    c1Event.wide = true ∧
    c1Event.pxStart = c1Event.termX * c1Rast.fontWidth ∧
    c1Event.pxStart + c1Event.cellWidth =
      min ((c1Event.termX + 2) * c1Rast.fontWidth) 13 ∧
    ∀ ev2 ∈ c1Events, ev2.termY = c1Event.termY →
      ev2.termX ≠ c1Event.termX + 1 := by
  obtain ⟨out, hr, _⟩ := renderToSurfaceWithOffset_eq c1Rast c1Glyph c1Backend
    c1Dest 13 13 5 0 0
  exact wide_cell_two_column_span_and_skip c1Rast c1Glyph c1Backend c1Dest 13 13 5
    0 0 out c1Events c1Event hr (by decide) (by decide)

end Ratadroid
